import Mathlib

/-!
Shallow embedding of the scoreboard synchronization layer of the Torus
repository (src/src-tauri/src/scoreboard.rs).

Pure functions of the source are translated directly.  Rust strings are
modelled through their character lists (String.data); the source checks
UTF-8 bytes, and on the ASCII-only strings accepted by every validator the
byte view and the character view coincide.  Rust str::trim is modelled by
rsTrim below (whitespace at both ends dropped); char-level truncation
(chars().take(n).collect()) by strTake.  Machine integers (i64, i32, u32)
are modelled as Int (or Nat for the u32 seed); no reachable arithmetic
overflows.  Rust integer division truncates toward zero, so Int.tdiv is
used wherever the source divides.  Stateful command handlers are modelled
as pure functions over an explicit cache state with the network and the
filesystem supplied as oracle arguments.
-/

/-- Decidable equality on Except values, used to evaluate the handler
models on concrete inputs. -/
instance {e a : Type _} [DecidableEq e] [DecidableEq a] : DecidableEq (Except e a) := fun x y =>
  match x, y with
  | .error u, .error v =>
    if h : u = v then .isTrue (by rw [h]) else .isFalse (fun hh => h (Except.error.inj hh))
  | .ok u, .ok v =>
    if h : u = v then .isTrue (by rw [h]) else .isFalse (fun hh => h (Except.ok.inj hh))
  | .error _, .ok _ => .isFalse (fun hh => Except.noConfusion hh)
  | .ok _, .error _ => .isFalse (fun hh => Except.noConfusion hh)

/-- Whitespace test used by the trim model (Rust str::trim drops Unicode
whitespace; every input the validators accept is ASCII, where the two
notions agree). -/
def rsTrimWs (c : Char) : Bool := c.isWhitespace

/-- Drops trailing whitespace characters, modelling the right half of
Rust str::trim. -/
def dropTrailWs (l : List Char) : List Char :=
  (l.reverse.dropWhile rsTrimWs).reverse

/-- Drops leading and trailing whitespace characters. -/
def trimChars (l : List Char) : List Char :=
  dropTrailWs (l.dropWhile rsTrimWs)

/-- Model of Rust str::trim. -/
def rsTrim (s : String) : String := String.mk (trimChars s.data)

/-- Model of s.chars().take(n).collect::<String>(). -/
def strTake (n : Nat) (s : String) : String := String.mk (s.data.take n)

/-- Model of u8::to_ascii_lowercase on a character: only the ASCII range
A-Z is lowered. -/
def asciiLowerChar (c : Char) : Char :=
  if 'A' ≤ c ∧ c ≤ 'Z' then Char.ofNat (c.toNat + 32) else c

/-- Model of str::to_ascii_lowercase. -/
def toAsciiLower (s : String) : String := String.mk (s.data.map asciiLowerChar)

/-- Rust i64::clamp / i32::clamp. -/
def clampInt (x lo hi : Int) : Int := min (max x lo) hi

/-! ## Data model (scoreboard.rs structs) -/

/-- SkillUsage record of scoreboard.rs. -/
structure SkillUsage where
  name : String
  hotkey : Option String
  command : Option String
deriving DecidableEq

/-- ScoreEntry record of scoreboard.rs. -/
structure ScoreEntry where
  user : String
  score : Int
  level : Int
  date : String
  skill_usage : List SkillUsage
  is_me : Bool
deriving DecidableEq

/-- ReplayInputEvent record of scoreboard.rs. -/
structure ReplayInputEvent where
  time : Int
  move_dir : String
deriving DecidableEq

/-- DailyReplayProof record of scoreboard.rs.  The u32 seed is a Nat; no
arithmetic is performed on it. -/
structure DailyReplayProof where
  version : Int
  difficulty : Int
  seed : Nat
  final_time : Int
  final_score : Int
  final_level : Int
  inputs : List ReplayInputEvent
deriving DecidableEq

/-- DailyStatus record of scoreboard.rs. -/
structure DailyStatus where
  challenge_key : String
  attempts_used : Int
  attempts_left : Int
  max_attempts : Int
  can_submit : Bool
  has_active_attempt : Bool
deriving DecidableEq

/-- DailyBadgeStatus record of scoreboard.rs. -/
structure DailyBadgeStatus where
  current_streak : Int
  max_streak : Int
  highest_badge_power : Option Int
  highest_badge_days : Option Int
  next_badge_power : Option Int
  next_badge_days : Option Int
  days_to_next_badge : Option Int
deriving DecidableEq

/-- DailyAttemptStartResult record of scoreboard.rs. -/
structure DailyAttemptStartResult where
  accepted : Bool
  resumed : Bool
  attempt_token : Option String
  challenge_key : String
  attempts_used : Int
  attempts_left : Int
  max_attempts : Int
  can_submit : Bool
  has_active_attempt : Bool
deriving DecidableEq

/-- DailySubmitResult record of scoreboard.rs. -/
structure DailySubmitResult where
  accepted : Bool
  improved : Bool
  challenge_key : String
  attempts_used : Int
  attempts_left : Int
  max_attempts : Int
  can_submit : Bool
  has_active_attempt : Bool
deriving DecidableEq

/-- DailyForfeitResult record of scoreboard.rs. -/
structure DailyForfeitResult where
  accepted : Bool
  challenge_key : String
  attempts_used : Int
  attempts_left : Int
  max_attempts : Int
  can_submit : Bool
  has_active_attempt : Bool
deriving DecidableEq

/-- RemoteDailyAttemptStatus record of scoreboard.rs (decoded Registry
response of fetch_remote_daily_attempts). -/
structure RemoteDailyAttemptStatus where
  attempts_used : Int
  has_active_attempt : Bool
deriving DecidableEq

/-- SupabaseConfig record of scoreboard.rs. -/
structure SupabaseConfig where
  url : String
  anon_key : String
deriving DecidableEq

/-! ## Constants of scoreboard.rs -/

def CACHE_MAX_ENTRIES : Nat := 100
def DEFAULT_TOP_LIMIT : Nat := 10
def MAX_TOP_LIMIT : Nat := 100
def MAX_SKILL_USAGE_ITEMS : Nat := 20
def MAX_SKILL_NAME_LEN : Nat := 20
def MAX_SKILL_HOTKEY_LEN : Nat := 16
def MAX_SKILL_COMMAND_LEN : Nat := 120
def DAILY_MAX_ATTEMPTS : Int := 3
def DAILY_BADGE_MAX_POWER : Int := 9
def MAX_DAILY_REPLAY_EVENTS : Nat := 20000
def MAX_DAILY_REPLAY_FINAL_TIME : Int := 2000000

/-! ## normalize_limit and normalize_supabase_config -/

/-- normalize_limit of scoreboard.rs: limit.unwrap_or(10).clamp(1, 100). -/
def normalize_limit (limit : Option Nat) : Nat :=
  min (max (limit.getD DEFAULT_TOP_LIMIT) 1) MAX_TOP_LIMIT

/-- normalize_supabase_config of scoreboard.rs: both values trimmed, and a
missing or empty value disables remote sync. -/
def normalize_supabase_config (supabase_url supabase_anon_key : Option String) :
    Option SupabaseConfig :=
  match supabase_url.map rsTrim with
  | none => none
  | some u =>
    if u = "" then none
    else
      match supabase_anon_key.map rsTrim with
      | none => none
      | some k => if k = "" then none else some { url := u, anon_key := k }

/-! ## Challenge-key validation and the calendar -/

/-- Character test of the format loop of normalize_daily_challenge_key:
dashes at indices 4 and 7, and the byte-range digit comparison of the
source everywhere else. -/
def keyCharOk (i : Nat) (c : Char) : Bool :=
  if i = 4 ∨ i = 7 then c = '-' else decide (48 ≤ c.toNat ∧ c.toNat ≤ 57)

/-- Indexed format loop of normalize_daily_challenge_key over the trimmed
characters, starting at index i. -/
def keyPatternOkFrom (i : Nat) : List Char → Bool
  | [] => true
  | c :: rest => keyCharOk i c && keyPatternOkFrom (i + 1) rest

/-- Format test of normalize_daily_challenge_key. -/
def keyPatternOk (cs : List Char) : Bool := keyPatternOkFrom 0 cs

/-- Well-formedness of an already trimmed challenge key: exactly the
acceptance condition of the format loop. -/
def wellFormedKey (s : String) : Bool :=
  decide (s.data.length = 10) && keyPatternOk s.data

/-- normalize_daily_challenge_key of scoreboard.rs: trims, then requires
exactly 10 characters shaped YYYY-MM-DD (digits and dashes only).  No
calendar validity is checked here. -/
def normalize_daily_challenge_key (raw : String) : Except String String :=
  let trimmed := rsTrim raw
  if trimmed.data.length ≠ 10 then
    .error "daily challenge key must be in YYYY-MM-DD format"
  else if keyPatternOk trimmed.data then .ok trimmed
  else .error "daily challenge key must be in YYYY-MM-DD format"

/-- parse_i32_digits of scoreboard.rs on a character slice. -/
def parse_i32_digits (cs : List Char) : Option Int :=
  if cs.isEmpty ∨ ¬ cs.all Char.isDigit then none
  else some (Int.ofNat (cs.foldl (fun a c => a * 10 + (c.toNat - 48)) 0))

/-- is_leap_year of scoreboard.rs. -/
def is_leap_year (year : Int) : Bool :=
  (year % 4 = 0 ∧ year % 100 ≠ 0) ∨ year % 400 = 0

/-- days_in_month of scoreboard.rs. -/
def days_in_month (year month : Int) : Int :=
  if month = 1 ∨ month = 3 ∨ month = 5 ∨ month = 7 ∨ month = 8 ∨ month = 10 ∨ month = 12 then 31
  else if month = 4 ∨ month = 6 ∨ month = 9 ∨ month = 11 then 30
  else if month = 2 then (if is_leap_year year then 29 else 28)
  else 0

/-- days_from_civil of scoreboard.rs (proleptic Gregorian day count;
Int.tdiv is the Rust truncating division). -/
def days_from_civil (year month day : Int) : Int :=
  let y := year - (if month ≤ 2 then 1 else 0)
  let era := Int.tdiv (if 0 ≤ y then y else y - 399) 400
  let yoe := y - era * 400
  let m := month + (if 2 < month then -3 else 9)
  let doy := Int.tdiv (153 * m + 2) 5 + day - 1
  let doe := yoe * 365 + Int.tdiv yoe 4 - Int.tdiv yoe 100 + doy
  era * 146097 + doe - 719468

/-- challenge_key_to_day_number of scoreboard.rs: full calendar validation
(month range, day range for the possibly leap year) plus day-number
conversion. -/
def challenge_key_to_day_number (challenge_key : String) : Option Int :=
  let cs := challenge_key.data
  if cs.length ≠ 10 then none
  else if ¬ (cs.get? 4 = some '-' ∧ cs.get? 7 = some '-') then none
  else
    match parse_i32_digits (cs.take 4), parse_i32_digits ((cs.drop 5).take 2),
        parse_i32_digits ((cs.drop 8).take 2) with
    | some year, some month, some day =>
      if month < 1 ∨ 12 < month then none
      else
        let max_day := days_in_month year month
        if day < 1 ∨ max_day < day then none
        else some (days_from_civil year month day)
    | _, _, _ => none

/-- is_valid_daily_challenge_key of scoreboard.rs. -/
def is_valid_daily_challenge_key (challenge_key : String) : Bool :=
  (challenge_key_to_day_number challenge_key).isSome

/-- is_next_challenge_day of scoreboard.rs. -/
def is_next_challenge_day (previous next : String) : Bool :=
  match challenge_key_to_day_number previous, challenge_key_to_day_number next with
  | some left, some right => right - left = 1
  | _, _ => false

/-! ## Entry sanitizer (sanitize_entry of scoreboard.rs) -/

/-- Normalization of one skill-usage item inside the sanitize_entry loop:
trim and truncate the name (item dropped when the result is empty), trim
and truncate hotkey and command with empty-after-trim treated as absent. -/
def sanitizeSkillItem (u : SkillUsage) : Option SkillUsage :=
  let name := strTake MAX_SKILL_NAME_LEN (rsTrim u.name)
  if name = "" then none
  else
    let hotkey := (u.hotkey.map (fun v => strTake MAX_SKILL_HOTKEY_LEN (rsTrim v))).bind
      (fun v => if v = "" then none else some v)
    let command := (u.command.map (fun v => strTake MAX_SKILL_COMMAND_LEN (rsTrim v))).bind
      (fun v => if v = "" then none else some v)
    some { name := name, hotkey := hotkey, command := command }

/-- Deduplication key of the sanitize_entry loop: the string
name::hotkey::command with absent hotkey and command rendered as the
empty string (format in the source). -/
def skillKey (s : SkillUsage) : String :=
  s.name ++ "::" ++ s.hotkey.getD "" ++ "::" ++ s.command.getD ""

/-- Skill-usage loop of sanitize_entry; seen models the HashSet of keys
already pushed. -/
def sanitizeSkillLoop (seen : List String) : List SkillUsage → List SkillUsage
  | [] => []
  | u :: rest =>
    match sanitizeSkillItem u with
    | none => sanitizeSkillLoop seen rest
    | some s =>
      if seen.contains (skillKey s) then sanitizeSkillLoop seen rest
      else s :: sanitizeSkillLoop (skillKey s :: seen) rest

/-- sanitize_entry of scoreboard.rs. -/
def sanitize_entry (entry : ScoreEntry) : Except String ScoreEntry :=
  let user := strTake 20 (rsTrim entry.user)
  if user = "" then .error "score entry user is empty"
  else
    .ok { user := user
          score := max entry.score 0
          level := max entry.level 0
          date := rsTrim entry.date
          skill_usage := sanitizeSkillLoop [] (entry.skill_usage.take MAX_SKILL_USAGE_ITEMS)
          is_me := false }

/-! ## Replay-proof validator (sanitize_daily_replay_proof of scoreboard.rs) -/

/-- Normalization of one move token: trim then ASCII-lowercase. -/
def normalizeMove (s : String) : String := toAsciiLower (rsTrim s)

/-- Event loop of sanitize_daily_replay_proof: last_time starts at -1;
each event needs a non-negative, non-decreasing time and a move that
lowercases to one of the four directions. -/
def sanitizeInputs : Int → List ReplayInputEvent → Except String (List ReplayInputEvent)
  | _, [] => .ok []
  | last_time, e :: rest =>
    if e.time < 0 then .error "daily replay input time cannot be negative"
    else if e.time < last_time then .error "daily replay input time order is invalid"
    else
      let m := normalizeMove e.move_dir
      if m = "left" ∨ m = "right" ∨ m = "up" ∨ m = "down" then
        match sanitizeInputs e.time rest with
        | .error msg => .error msg
        | .ok tail => .ok ({ time := e.time, move_dir := m } :: tail)
      else .error "daily replay input move is invalid"

/-- Final guard of sanitize_daily_replay_proof: the last retained event
must not exceed final_time. -/
def lastExceeds (out : List ReplayInputEvent) (final_time : Int) : Bool :=
  (out.getLast?.map (fun e => decide (final_time < e.time))).getD false

/-- sanitize_daily_replay_proof of scoreboard.rs. -/
def sanitize_daily_replay_proof (proof : DailyReplayProof) :
    Except String DailyReplayProof :=
  if proof.version ≠ 1 then .error "daily replay proof version is not supported"
  else if ¬ (proof.difficulty = 1 ∨ proof.difficulty = 2 ∨ proof.difficulty = 3) then
    .error "daily replay proof difficulty is invalid"
  else if proof.final_time < 0 ∨ proof.final_score < 0 ∨ proof.final_level < 0 then
    .error "daily replay proof has invalid final values"
  else if MAX_DAILY_REPLAY_FINAL_TIME < proof.final_time then
    .error "daily replay proof final time exceeds limit"
  else
    match sanitizeInputs (-1) (proof.inputs.take MAX_DAILY_REPLAY_EVENTS) with
    | .error msg => .error msg
    | .ok sanitized_inputs =>
      if lastExceeds sanitized_inputs proof.final_time then
        .error "daily replay input exceeds final time"
      else
        .ok { version := 1
              difficulty := proof.difficulty
              seed := proof.seed
              final_time := proof.final_time
              final_score := proof.final_score
              final_level := proof.final_level
              inputs := sanitized_inputs }

/-! ## Local score cache (sort_and_dedupe, truncate_cache of scoreboard.rs) -/

/-- Lexicographic less-or-equal on character lists by code point; the byte
order that Rust String comparison uses coincides with it on valid UTF-8. -/
def charsLeb : List Char → List Char → Bool
  | [], _ => true
  | _ :: _, [] => false
  | a :: as, b :: bs =>
    if a.toNat < b.toNat then true
    else if b.toNat < a.toNat then false
    else charsLeb as bs

/-- String less-or-equal used for ranking dates and sorting challenge
keys. -/
def strRel (a b : String) : Prop := charsLeb a.data b.data = true

instance : DecidableRel strRel := fun a b => by unfold strRel; infer_instance

/-- The comparator of sort_and_dedupe as a less-or-equal relation: a may
come before b when the comparator does not order b strictly first, giving
the descending lexicographic order on (score, level, date). -/
def rankRel (a b : ScoreEntry) : Prop :=
  b.score < a.score ∨ (a.score = b.score ∧
    (b.level < a.level ∨ (a.level = b.level ∧ strRel b.date a.date)))

instance : DecidableRel rankRel := fun a b => by unfold rankRel; infer_instance

/-- JSON string escaping as performed by serde_json (quote, backslash and
control characters). -/
def jsonEscapeChar (c : Char) : String :=
  if c = '"' then "\\\""
  else if c = '\\' then "\\\\"
  else if c = (Char.ofNat 8) then "\\b"
  else if c = (Char.ofNat 12) then "\\f"
  else if c = '\n' then "\\n"
  else if c = '\r' then "\\r"
  else if c = '\t' then "\\t"
  else if c.toNat < 32 then
    "\\u00" ++ String.mk [(Nat.digitChar (c.toNat / 16)), (Nat.digitChar (c.toNat % 16))]
  else String.mk [c]

/-- JSON rendering of one string literal. -/
def jsonString (s : String) : String :=
  "\"" ++ String.join (s.data.map jsonEscapeChar) ++ "\""

/-- JSON rendering of an optional string (null when absent). -/
def jsonOptString : Option String → String
  | none => "null"
  | some s => jsonString s

/-- serde_json::to_string of one SkillUsage value. -/
def skillUsageItemJson (u : SkillUsage) : String :=
  "\x7b\"name\":" ++ jsonString u.name ++ ",\"hotkey\":" ++ jsonOptString u.hotkey ++
    ",\"command\":" ++ jsonOptString u.command ++ "\x7d"

/-- serde_json::to_string of the skill_usage vector, used inside the cache
deduplication key. -/
def skillUsageJson (l : List SkillUsage) : String :=
  "[" ++ String.intercalate "," (l.map skillUsageItemJson) ++ "]"

/-- Deduplication key of sort_and_dedupe:
user::score::level::date::serialized-skill-usage.  The key ignores is_me. -/
def cacheKey (e : ScoreEntry) : String :=
  e.user ++ "::" ++ toString e.score ++ "::" ++ toString e.level ++ "::" ++
    e.date ++ "::" ++ skillUsageJson e.skill_usage

/-- One drain step of the deduplication map of sort_and_dedupe: a repeated
key folds is_me into the entry kept first; a fresh key appends.  The fold
computes the content of the HashMap of the source, listed in insertion
order; since the iteration order of into_values is unspecified and
randomly seeded, that list stands for the map content only up to
permutation, which sort_and_dedupe_outcome below quantifies over. -/
def dedupeStep (acc : List ScoreEntry) (e : ScoreEntry) : List ScoreEntry :=
  if acc.any (fun x => cacheKey x == cacheKey e) then
    acc.map (fun x => if cacheKey x == cacheKey e then { x with is_me := x.is_me || e.is_me } else x)
  else acc ++ [e]

/-- Stable sort by the ranking comparator (score desc, level desc, date
desc); Rust sort_by is a stable sort, modelled by insertion sort. -/
def sortEntries (l : List ScoreEntry) : List ScoreEntry :=
  List.insertionSort rankRel l

/-- sort_and_dedupe of scoreboard.rs, determinized: sort, collapse
duplicate keys with is_me folded by logical or, sort the surviving values
with the map drained in insertion order.  The program drains a randomly
seeded HashMap instead, so rank-tied entries with distinct keys may come
out in any order between runs: this function is the canonical
insertion-order representative, and sort_and_dedupe_outcome below relates
an input to every list the program can produce for it. -/
def sort_and_dedupe (l : List ScoreEntry) : List ScoreEntry :=
  sortEntries ((sortEntries l).foldl dedupeStep [])

/-- All possible results of one run of sort_and_dedupe of scoreboard.rs:
into_values may emit the deduplicated map content in any permutation of
the insertion-order list before the final stable sort runs. -/
def sort_and_dedupe_outcome (l out : List ScoreEntry) : Prop :=
  ∃ v, v.Perm ((sortEntries l).foldl dedupeStep []) ∧ out = sortEntries v

/-- truncate_cache of scoreboard.rs. -/
def truncate_cache (l : List ScoreEntry) : List ScoreEntry :=
  if CACHE_MAX_ENTRIES < l.length then l.take CACHE_MAX_ENTRIES else l

/-- read_cache of scoreboard.rs on the decoded file content: an absent or
unparseable file decodes to the empty list, then sort_and_dedupe and
truncate_cache run. -/
def read_cache_model (disk : Option (List ScoreEntry)) : List ScoreEntry :=
  truncate_cache (sort_and_dedupe (disk.getD []))

/-! ## Badge and streak calculator (compute_daily_badge_status of scoreboard.rs) -/

/-- Vec::dedup on a sorted vector: consecutive duplicates removed. -/
def dedupAdj : List String → List String
  | [] => []
  | [a] => [a]
  | a :: b :: rest => if a = b then dedupAdj (b :: rest) else a :: dedupAdj (b :: rest)

/-- Forward pass of compute_daily_badge_status: walks the sorted keys
keeping the current run and the best run seen. -/
def maxStreakAux (prev : String) (run best : Int) : List String → Int
  | [] => best
  | k :: rest =>
    let run := if is_next_challenge_day prev k then run + 1 else 1
    maxStreakAux k run (max best run) rest

/-- Backward pass of compute_daily_badge_status: length of the maximal
adjacent run ending at the last key, walking predecessors. -/
def latestRunAux (cur : String) : List String → Int
  | [] => 1
  | p :: rest => if is_next_challenge_day p cur then 1 + latestRunAux p rest else 1

/-- Run length ending at the last key of the sorted list. -/
def latestRunOf (l : List String) : Int :=
  match l.reverse with
  | [] => 1
  | cur :: prevs => latestRunAux cur prevs

/-- While loop of resolve_badge_power: raises power while the next tier
threshold is within the streak. -/
def resolvePowerAux (streak : Int) (power : Nat) : Nat :=
  if h : power < 9 ∧ (2 : Int) ^ (power + 1) ≤ streak then
    resolvePowerAux streak (power + 1)
  else power
termination_by 9 - power
decreasing_by omega

/-- resolve_badge_power of scoreboard.rs. -/
def resolve_badge_power (streak : Int) : Option Int :=
  if streak < 1 then none else some (Int.ofNat (resolvePowerAux streak 0))

/-- badge_status_from_streaks of scoreboard.rs. -/
def badge_status_from_streaks (current_streak max_streak : Int) : DailyBadgeStatus :=
  let highest_badge_power := resolve_badge_power max_streak
  let highest_badge_days := highest_badge_power.map (fun power => (2 : Int) ^ power.toNat)
  let next_badge_power : Option Int :=
    match highest_badge_power with
    | none => some 0
    | some power => if DAILY_BADGE_MAX_POWER ≤ power then none else some (power + 1)
  let next_badge_days := next_badge_power.map (fun power => (2 : Int) ^ power.toNat)
  let days_to_next_badge := next_badge_days.map (fun days => max (days - current_streak) 0)
  { current_streak := current_streak
    max_streak := max_streak
    highest_badge_power := highest_badge_power
    highest_badge_days := highest_badge_days
    next_badge_power := next_badge_power
    next_badge_days := next_badge_days
    days_to_next_badge := days_to_next_badge }

/-- compute_daily_badge_status of scoreboard.rs: normalize and drop
invalid keys, sort ascending, dedupe, then fold the streaks. -/
def compute_daily_badge_status (accepted_challenge_keys : List String)
    (challenge_key : String) : DailyBadgeStatus :=
  let normalized :=
    (accepted_challenge_keys.filterMap
        (fun v => (normalize_daily_challenge_key v).toOption)).filter
      is_valid_daily_challenge_key
  let sorted := dedupAdj (List.insertionSort strRel normalized)
  match sorted with
  | [] => badge_status_from_streaks 0 0
  | first :: rest =>
    let max_streak := maxStreakAux first 1 1 rest
    let latest_run := latestRunOf (first :: rest)
    let latest_key := (first :: rest).getLast?.getD ""
    let current_streak :=
      if latest_key = challenge_key ∨ is_next_challenge_day latest_key challenge_key then
        latest_run
      else 0
    badge_status_from_streaks current_streak max_streak

/-! ## Daily status construction -/

/-- build_daily_status of scoreboard.rs: used is clamped to [0, 3] and
left is recomputed as 3 - used. -/
def build_daily_status (challenge_key : String) (attempts_used : Int)
    (has_active_attempt : Bool) : DailyStatus :=
  let used := clampInt attempts_used 0 DAILY_MAX_ATTEMPTS
  let left := DAILY_MAX_ATTEMPTS - used
  { challenge_key := challenge_key
    attempts_used := used
    attempts_left := left
    max_attempts := DAILY_MAX_ATTEMPTS
    can_submit := decide (0 < left)
    has_active_attempt := has_active_attempt }

/-! ## Command handlers, modelled with the network and filesystem as
oracle arguments.  A handler receives the decoded cache file content (none
when absent or unparseable), the device-uuid resolution outcome, and the
decoded Registry response for the single request it makes; request bodies
the handler would send are visible as the arguments given to the oracle
function. -/

/-- Outcome of fetch_global_scores: the value returned to the caller plus
the cache state written back, when one is written. -/
structure FetchOutcome where
  result : Except String (List ScoreEntry)
  written : Option (List ScoreEntry)

/-- fetch_global_scores of scoreboard.rs.  On remote success the merged
union goes to the cache file and the remote list itself is returned; on
remote failure or absent configuration the ranked cache prefix is
returned. -/
def fetch_global_scores (disk : Option (List ScoreEntry)) (limit : Option Nat)
    (supabase_url supabase_anon_key : Option String)
    (remote : Except String (List ScoreEntry)) : FetchOutcome :=
  let top_limit := normalize_limit limit
  let cache := read_cache_model disk
  match normalize_supabase_config supabase_url supabase_anon_key with
  | some _ =>
    match remote with
    | .ok remote_entries =>
      let merged := truncate_cache (sort_and_dedupe (cache ++ remote_entries))
      { result := .ok remote_entries, written := some merged }
    | .error _ =>
      { result := .ok ((sort_and_dedupe cache).take top_limit), written := none }
  | none => { result := .ok ((sort_and_dedupe cache).take top_limit), written := none }

/-- Observable actions of submit_global_score, in program order. -/
inductive SubmitAction where
  | cacheWrite (entries : List ScoreEntry)
  | remoteSubmit (entry : ScoreEntry) (proof : DailyReplayProof) (client_uuid : String)
deriving DecidableEq

/-- Outcome of submit_global_score: the value returned to the caller plus
the ordered actions performed. -/
structure SubmitOutcome where
  result : Except String Unit
  actions : List SubmitAction

/-- submit_global_score of scoreboard.rs.  The sanitized entry is marked
is_me, merged, and written to the cache before the remote submission is
attempted; a remote failure is only logged, so the returned value and the
actions do not depend on remote_result. -/
def submit_global_score (disk : Option (List ScoreEntry)) (entry : ScoreEntry)
    (replay_proof : DailyReplayProof) (supabase_url supabase_anon_key : Option String)
    (uuid_result : Except String String) (remote_result : Except String Unit) :
    SubmitOutcome :=
  let cache := read_cache_model disk
  match sanitize_entry entry with
  | .error e => { result := .error e, actions := [] }
  | .ok sanitized =>
    match sanitize_daily_replay_proof replay_proof with
    | .error e => { result := .error e, actions := [] }
    | .ok proof =>
      match uuid_result with
      | .error e => { result := .error e, actions := [] }
      | .ok device_uuid =>
        let entry1 : ScoreEntry := { sanitized with is_me := true }
        let cache1 := truncate_cache (sort_and_dedupe (cache ++ [entry1]))
        match normalize_supabase_config supabase_url supabase_anon_key with
        | some _ =>
          { result := .ok ()
            actions := [SubmitAction.cacheWrite cache1,
              SubmitAction.remoteSubmit entry1 proof device_uuid] }
        | none => { result := .ok (), actions := [SubmitAction.cacheWrite cache1] }

/-- fetch_daily_scores of scoreboard.rs; the remote oracle is a function
of the challenge key sent in the request. -/
def fetch_daily_scores (challenge_key : String) (limit : Option Nat)
    (supabase_url supabase_anon_key : Option String)
    (remote : String → Except String (List ScoreEntry)) :
    Except String (List ScoreEntry) :=
  let _top_limit := normalize_limit limit
  match normalize_daily_challenge_key challenge_key with
  | .error e => .error e
  | .ok normalized_challenge_key =>
    match normalize_supabase_config supabase_url supabase_anon_key with
    | none => .error "daily challenge sync requires Supabase configuration"
    | some _ => remote normalized_challenge_key

/-- fetch_daily_status of scoreboard.rs. -/
def fetch_daily_status (challenge_key : String)
    (supabase_url supabase_anon_key : Option String)
    (uuid_result : Except String String)
    (remote : String → Except String RemoteDailyAttemptStatus) :
    Except String DailyStatus :=
  match normalize_daily_challenge_key challenge_key with
  | .error e => .error e
  | .ok normalized_challenge_key =>
    match normalize_supabase_config supabase_url supabase_anon_key with
    | none => .error "daily challenge sync requires Supabase configuration"
    | some _ =>
      match uuid_result with
      | .error e => .error e
      | .ok _ =>
        match remote normalized_challenge_key with
        | .error e => .error e
        | .ok remote_status =>
          .ok (build_daily_status normalized_challenge_key remote_status.attempts_used
            remote_status.has_active_attempt)

/-- fetch_daily_badge_status of scoreboard.rs; the badge-key query is
keyed by the device only. -/
def fetch_daily_badge_status (challenge_key : String)
    (supabase_url supabase_anon_key : Option String)
    (uuid_result : Except String String)
    (remote_keys : Except String (List String)) : Except String DailyBadgeStatus :=
  match normalize_daily_challenge_key challenge_key with
  | .error e => .error e
  | .ok normalized_challenge_key =>
    match normalize_supabase_config supabase_url supabase_anon_key with
    | none => .error "daily challenge sync requires Supabase configuration"
    | some _ =>
      match uuid_result with
      | .error e => .error e
      | .ok _ =>
        match remote_keys with
        | .error e => .error e
        | .ok keys => .ok (compute_daily_badge_status keys normalized_challenge_key)

/-- start_remote_daily_attempt of scoreboard.rs: trims the token (empty
treated as absent) and clamps both counters from the Registry response;
attempts_left is the clamped Registry attempts_left, not recomputed from
attempts_used. -/
def start_remote_daily_attempt (challenge_key : String)
    (remote : String → Except String DailyAttemptStartResult) :
    Except String DailyAttemptStartResult :=
  match remote challenge_key with
  | .error e => .error e
  | .ok result =>
    let token := (result.attempt_token.map rsTrim).bind
      (fun v => if v = "" then none else some v)
    let attempts_left := clampInt result.attempts_left 0 DAILY_MAX_ATTEMPTS
    .ok { accepted := result.accepted
          resumed := result.resumed
          attempt_token := token
          challenge_key := challenge_key
          attempts_used := clampInt result.attempts_used 0 DAILY_MAX_ATTEMPTS
          attempts_left := attempts_left
          max_attempts := DAILY_MAX_ATTEMPTS
          can_submit := decide (0 < attempts_left)
          has_active_attempt := result.has_active_attempt }

/-- start_daily_attempt of scoreboard.rs. -/
def start_daily_attempt (challenge_key : String)
    (supabase_url supabase_anon_key : Option String)
    (uuid_result : Except String String)
    (remote : String → Except String DailyAttemptStartResult) :
    Except String DailyAttemptStartResult :=
  match normalize_daily_challenge_key challenge_key with
  | .error e => .error e
  | .ok normalized_challenge_key =>
    match normalize_supabase_config supabase_url supabase_anon_key with
    | none => .error "daily challenge sync requires Supabase configuration"
    | some _ =>
      match uuid_result with
      | .error e => .error e
      | .ok _ => start_remote_daily_attempt normalized_challenge_key remote

/-- submit_remote_daily_score of scoreboard.rs, response normalization
part: counters clamped, challenge key echoed. -/
def submit_remote_daily_score (challenge_key : String)
    (response : Except String DailySubmitResult) : Except String DailySubmitResult :=
  match response with
  | .error e => .error e
  | .ok result =>
    .ok { accepted := result.accepted
          improved := result.improved
          challenge_key := challenge_key
          attempts_used := clampInt result.attempts_used 0 DAILY_MAX_ATTEMPTS
          attempts_left := clampInt result.attempts_left 0 DAILY_MAX_ATTEMPTS
          max_attempts := DAILY_MAX_ATTEMPTS
          can_submit := decide (0 < clampInt result.attempts_left 0 DAILY_MAX_ATTEMPTS)
          has_active_attempt := result.has_active_attempt }

/-- submit_daily_score of scoreboard.rs; the remote oracle is a function
of the challenge key and trimmed attempt token sent in the request. -/
def submit_daily_score (challenge_key attempt_token : String) (entry : ScoreEntry)
    (replay_proof : DailyReplayProof) (supabase_url supabase_anon_key : Option String)
    (uuid_result : Except String String)
    (remote : String → String → Except String DailySubmitResult) :
    Except String DailySubmitResult :=
  match normalize_daily_challenge_key challenge_key with
  | .error e => .error e
  | .ok normalized_challenge_key =>
    match normalize_supabase_config supabase_url supabase_anon_key with
    | none => .error "daily challenge sync requires Supabase configuration"
    | some _ =>
      match sanitize_entry entry with
      | .error e => .error e
      | .ok _ =>
        match sanitize_daily_replay_proof replay_proof with
        | .error e => .error e
        | .ok _ =>
          match uuid_result with
          | .error e => .error e
          | .ok _ =>
            let normalized_attempt_token := rsTrim attempt_token
            if normalized_attempt_token = "" then
              .error "daily challenge attempt token is required"
            else
              submit_remote_daily_score normalized_challenge_key
                (remote normalized_challenge_key normalized_attempt_token)

/-- forfeit_remote_daily_attempt of scoreboard.rs, response normalization
part. -/
def forfeit_remote_daily_attempt (challenge_key : String)
    (response : Except String DailyForfeitResult) : Except String DailyForfeitResult :=
  match response with
  | .error e => .error e
  | .ok result =>
    let attempts_left := clampInt result.attempts_left 0 DAILY_MAX_ATTEMPTS
    .ok { accepted := result.accepted
          challenge_key := challenge_key
          attempts_used := clampInt result.attempts_used 0 DAILY_MAX_ATTEMPTS
          attempts_left := attempts_left
          max_attempts := DAILY_MAX_ATTEMPTS
          can_submit := decide (0 < attempts_left)
          has_active_attempt := result.has_active_attempt }

/-- forfeit_daily_attempt of scoreboard.rs; the token is checked before
the device uuid is resolved. -/
def forfeit_daily_attempt (challenge_key attempt_token : String)
    (supabase_url supabase_anon_key : Option String)
    (uuid_result : Except String String)
    (remote : String → String → Except String DailyForfeitResult) :
    Except String DailyForfeitResult :=
  match normalize_daily_challenge_key challenge_key with
  | .error e => .error e
  | .ok normalized_challenge_key =>
    match normalize_supabase_config supabase_url supabase_anon_key with
    | none => .error "daily challenge sync requires Supabase configuration"
    | some _ =>
      let normalized_attempt_token := rsTrim attempt_token
      if normalized_attempt_token = "" then
        .error "daily challenge attempt token is required"
      else
        match uuid_result with
        | .error e => .error e
        | .ok _ =>
          forfeit_remote_daily_attempt normalized_challenge_key
            (remote normalized_challenge_key normalized_attempt_token)

/-! ## Reference formulations used to state the deduplication claims -/

/-- Reference first-occurrence filter: an item is kept exactly when no
earlier normalized item (kept or dropped) carries the same deduplication
key; prev accumulates every item already seen. -/
def keepFirstOcc (prev : List SkillUsage) : List SkillUsage → List SkillUsage
  | [] => []
  | x :: xs =>
    if prev.any (fun y => skillKey y == skillKey x) then keepFirstOcc (prev ++ [x]) xs
    else x :: keepFirstOcc (prev ++ [x]) xs

/-- The four accepted move tokens of the replay validator. -/
def validMove (m : String) : Prop :=
  m = "left" ∨ m = "right" ∨ m = "up" ∨ m = "down"

/-! ## Theorems -/

/-- C1 counterexample: with accepted keys 2024-01-01 and 2024-01-05 and
today 2024-01-06, the computed status does not have currentStreak = 0 with
maxStreak = 1; the last accepted key is the day immediately before today,
so the latest run still counts. -/
theorem c1_badge_gap_counterexample :
    ¬ ((compute_daily_badge_status ["2024-01-01", "2024-01-05"] "2024-01-06").current_streak = 0 ∧
      (compute_daily_badge_status ["2024-01-01", "2024-01-05"] "2024-01-06").max_streak = 1) := by
  decide

/-- C1 amended: with accepted keys 2024-01-01 and 2024-01-05 and today
2024-01-06, the computed result has currentStreak = 1 and maxStreak = 1:
the gap resets the run, and because 2024-01-05 is the day immediately
before today the latest run of length 1 is still current, not lapsed. -/
theorem c1_badge_gap_amended :
    (compute_daily_badge_status ["2024-01-01", "2024-01-05"] "2024-01-06").current_streak = 1 ∧
      (compute_daily_badge_status ["2024-01-01", "2024-01-05"] "2024-01-06").max_streak = 1 := by
  decide

/-- Characterization of the key validator: the outcome depends only on the
trimmed key and on the 10-character digit-dash format test. -/
theorem normalize_eq_wf (raw : String) :
    normalize_daily_challenge_key raw =
      if wellFormedKey (rsTrim raw) then Except.ok (rsTrim raw)
      else Except.error "daily challenge key must be in YYYY-MM-DD format" := by
  simp only [normalize_daily_challenge_key, wellFormedKey]
  split_ifs with h1 h2 h3 h4 <;> simp_all

/-- C2 counterexample: the daily-scores operation does not reject the key
2023-02-29, whose day is invalid for the non-leap year 2023: the key
passes challenge-key validation and the Registry response is returned. -/
theorem c2_feb29_counterexample :
    fetch_daily_scores "2023-02-29" none (some "url") (some "key")
        (fun _ => .ok []) = .ok [] ∧
    normalize_daily_challenge_key "2023-02-29" = .ok "2023-02-29" ∧
    challenge_key_to_day_number "2023-02-29" = none := by
  exact ⟨by decide, by decide, by decide⟩

/-- C2 amended: every daily-challenge operation rejects, before any
network call, exactly the keys whose trimmed form fails the 10-character
digit-dash format test; calendar validity of day and month is not part of
that validation, so 2023-02-29 passes it just as 2024-02-29 does, and only
challenge_key_to_day_number (used by the badge computation to filter keys)
distinguishes them. -/
theorem c2_format_only_validation :
    (∀ raw, wellFormedKey (rsTrim raw) = false →
      (∀ limit url akey remote, fetch_daily_scores raw limit url akey remote =
        .error "daily challenge key must be in YYYY-MM-DD format") ∧
      (∀ url akey uuid remote, fetch_daily_status raw url akey uuid remote =
        .error "daily challenge key must be in YYYY-MM-DD format") ∧
      (∀ url akey uuid rkeys, fetch_daily_badge_status raw url akey uuid rkeys =
        .error "daily challenge key must be in YYYY-MM-DD format") ∧
      (∀ url akey uuid remote, start_daily_attempt raw url akey uuid remote =
        .error "daily challenge key must be in YYYY-MM-DD format") ∧
      (∀ tok e p url akey uuid remote, submit_daily_score raw tok e p url akey uuid remote =
        .error "daily challenge key must be in YYYY-MM-DD format") ∧
      (∀ tok url akey uuid remote, forfeit_daily_attempt raw tok url akey uuid remote =
        .error "daily challenge key must be in YYYY-MM-DD format")) ∧
    normalize_daily_challenge_key "2023-02-29" = .ok "2023-02-29" ∧
    normalize_daily_challenge_key "2024-02-29" = .ok "2024-02-29" ∧
    challenge_key_to_day_number "2023-02-29" = none ∧
    (challenge_key_to_day_number "2024-02-29").isSome = true := by
  refine ⟨?_, by decide, by decide, by decide, by decide⟩
  intro raw h
  have hn : normalize_daily_challenge_key raw =
      .error "daily challenge key must be in YYYY-MM-DD format" := by
    rw [normalize_eq_wf, h]
    simp
  refine ⟨?_, ?_, ?_, ?_, ?_, ?_⟩ <;>
    intros <;>
    simp [fetch_daily_scores, fetch_daily_status, fetch_daily_badge_status,
      start_daily_attempt, submit_daily_score, forfeit_daily_attempt, hn]

/-- C2 witness: the malformed key x is rejected by the daily-scores
operation without consulting the Registry oracle. -/
theorem c2_format_only_validation_witness :
    wellFormedKey (rsTrim "x") = false ∧
    fetch_daily_scores "x" none none none (fun _ => .ok []) =
      .error "daily challenge key must be in YYYY-MM-DD format" :=
  ⟨by decide, (c2_format_only_validation.1 "x" (by decide)).1 none none none (fun _ => .ok [])⟩

/-- C3 counterexample: for the Registry response with attemptsUsed = 3 and
attemptsLeft = 3, the result returned by the start operation keeps the
clamped Registry attemptsLeft of 3, which differs from
clamp(maxAttempts - attemptsUsed, 0, maxAttempts) = 0. -/
theorem c3_start_counterexample :
    (start_remote_daily_attempt "2024-01-06"
        (fun _ => .ok (⟨true, false, none, "2024-01-06", 3, 3, 3, true, false⟩ :
          DailyAttemptStartResult))).map
      (fun out => decide (out.attempts_left =
        clampInt (out.max_attempts - out.attempts_used) 0 out.max_attempts)) =
      .ok false := by
  decide

/-- C3 amended: for every Registry response to a start request, the result
carries attemptsLeft = clamp(Registry attemptsLeft, 0, 3), taken from the
attemptsLeft field of the response rather than recomputed from
attemptsUsed, together with attemptsUsed clamped to [0, 3], maxAttempts =
3 and canSubmit = attemptsLeft > 0. -/
theorem c3_start_clamps_registry_left (key : String)
    (remote : String → Except String DailyAttemptStartResult)
    (r out : DailyAttemptStartResult)
    (h1 : remote key = .ok r)
    (h2 : start_remote_daily_attempt key remote = .ok out) :
    out.attempts_left = clampInt r.attempts_left 0 DAILY_MAX_ATTEMPTS ∧
    out.attempts_used = clampInt r.attempts_used 0 DAILY_MAX_ATTEMPTS ∧
    out.max_attempts = DAILY_MAX_ATTEMPTS ∧
    out.can_submit = decide (0 < out.attempts_left) := by
  unfold start_remote_daily_attempt at h2
  rw [h1] at h2
  cases h2
  simp

/-- C3 witness: a Registry response with attemptsUsed = 1 and
attemptsLeft = 2 yields a result with attemptsLeft = 2 and canSubmit. -/
theorem c3_start_clamps_registry_left_witness :
    ((fun _ : String => Except.ok (ε := String)
        (⟨true, false, none, "2024-01-06", 1, 2, 3, true, false⟩ :
          DailyAttemptStartResult)) "2024-01-06" =
      .ok (⟨true, false, none, "2024-01-06", 1, 2, 3, true, false⟩ :
        DailyAttemptStartResult)) ∧
    ((⟨true, false, none, "2024-01-06", 1,
        clampInt 2 0 DAILY_MAX_ATTEMPTS, 3, true, false⟩ :
      DailyAttemptStartResult).attempts_left =
        clampInt 2 0 DAILY_MAX_ATTEMPTS ∧
      (1 : Int) = clampInt 1 0 DAILY_MAX_ATTEMPTS ∧
      (3 : Int) = DAILY_MAX_ATTEMPTS ∧
      (true = decide ((0 : Int) < 2))) := by
  refine ⟨rfl, ?_⟩
  have h := c3_start_clamps_registry_left "2024-01-06"
    (fun _ => .ok (⟨true, false, none, "2024-01-06", 1, 2, 3, true, false⟩ :
      DailyAttemptStartResult))
    ⟨true, false, none, "2024-01-06", 1, 2, 3, true, false⟩
    ⟨true, false, none, "2024-01-06", clampInt 1 0 DAILY_MAX_ATTEMPTS,
      clampInt 2 0 DAILY_MAX_ATTEMPTS, DAILY_MAX_ATTEMPTS,
      decide ((0 : Int) < clampInt 2 0 DAILY_MAX_ATTEMPTS), false⟩
    rfl (by decide)
  exact ⟨by decide, by decide, by decide, by decide⟩

/-- Keys already seen by the skill-usage loop are never keys of its
output, and output keys are pairwise distinct. -/
theorem sanitizeSkillLoop_fresh_and_pairwise :
    ∀ (l : List SkillUsage) (seen : List String),
      (∀ x ∈ sanitizeSkillLoop seen l, ¬ (skillKey x ∈ seen)) ∧
      (sanitizeSkillLoop seen l).Pairwise (fun a b => skillKey a ≠ skillKey b) := by
  intro l
  induction l with
  | nil => intro seen; simp [sanitizeSkillLoop]
  | cons u rest ih =>
    intro seen
    unfold sanitizeSkillLoop
    cases hitem : sanitizeSkillItem u with
    | none => exact ih seen
    | some s =>
      by_cases hseen : seen.contains (skillKey s) = true
      · simp only [hseen, if_pos]
        exact ih seen
      · simp only [hseen, if_neg, Bool.false_eq_true, not_false_eq_true]
        have hmem : ¬ (skillKey s ∈ seen) := by
          intro hk
          exact hseen (by simpa using hk)
        constructor
        · intro x hx
          rcases List.mem_cons.mp hx with hx | hx
          · subst hx; exact hmem
          · have h1 := (ih (skillKey s :: seen)).1 x hx
            intro hk
            exact h1 (List.mem_cons_of_mem _ hk)
        · refine List.pairwise_cons.mpr ⟨?_, (ih (skillKey s :: seen)).2⟩
          intro y hy
          have h1 := (ih (skillKey s :: seen)).1 y hy
          intro hk
          exact h1 (by rw [← hk]; exact List.mem_cons_self _ _)

/-- The skill-usage loop agrees with the reference first-occurrence
filter, provided the seen set holds exactly the keys of the items already
walked. -/
theorem sanitizeSkillLoop_eq_keepFirstOcc :
    ∀ (l : List SkillUsage) (seen : List String) (prev : List SkillUsage),
      (∀ k, k ∈ seen ↔ ∃ y ∈ prev, skillKey y = k) →
      sanitizeSkillLoop seen l = keepFirstOcc prev (l.filterMap sanitizeSkillItem) := by
  intro l
  induction l with
  | nil => intro seen prev _; simp [sanitizeSkillLoop, keepFirstOcc]
  | cons u rest ih =>
    intro seen prev hinv
    unfold sanitizeSkillLoop
    cases hitem : sanitizeSkillItem u with
    | none =>
      rw [List.filterMap_cons_none hitem]
      exact ih seen prev hinv
    | some s =>
      rw [List.filterMap_cons_some hitem]
      have hguard : seen.contains (skillKey s) =
          prev.any (fun y => skillKey y == skillKey s) := by
        by_cases h : skillKey s ∈ seen
        · have ⟨y, hy, hk⟩ := (hinv (skillKey s)).mp h
          have : prev.any (fun y => skillKey y == skillKey s) = true :=
            List.any_eq_true.mpr ⟨y, hy, by simpa using hk⟩
          simp [this, h]
        · have : prev.any (fun y => skillKey y == skillKey s) = false := by
            rw [List.any_eq_false]
            intro y hy hk
            exact h ((hinv (skillKey s)).mpr ⟨y, hy, by simpa using hk⟩)
          simp [this, h]
      simp only [sanitizeSkillLoop, hitem, keepFirstOcc]
      rw [← hguard]
      by_cases hseen : seen.contains (skillKey s) = true
      · rw [if_pos hseen, if_pos hseen]
        refine ih seen (prev ++ [s]) ?_
        intro k
        rw [hinv k]
        constructor
        · rintro ⟨y, hy, hk⟩
          exact ⟨y, List.mem_append_left _ hy, hk⟩
        · rintro ⟨y, hy, hk⟩
          rcases List.mem_append.mp hy with hy | hy
          · exact ⟨y, hy, hk⟩
          · have : y = s := by simpa using hy
            subst this
            subst hk
            exact (hinv (skillKey y)).mp (by simpa using hseen)
      · rw [if_neg hseen, if_neg hseen]
        congr 1
        refine ih (skillKey s :: seen) (prev ++ [s]) ?_
        intro k
        constructor
        · intro hk
          rcases List.mem_cons.mp hk with hk | hk
          · exact ⟨s, List.mem_append_right _ (by simp), hk.symm⟩
          · have ⟨y, hy, hky⟩ := (hinv k).mp hk
            exact ⟨y, List.mem_append_left _ hy, hky⟩
        · rintro ⟨y, hy, hky⟩
          rcases List.mem_append.mp hy with hy | hy
          · exact List.mem_cons_of_mem _ ((hinv k).mpr ⟨y, hy, hky⟩)
          · have : y = s := by simpa using hy
            subst this
            subst hky
            exact List.mem_cons_self _ _

/-- C4 amended: in the entry sanitizer, among the skill-usage items that
survive trimming, an item is dropped exactly when some earlier surviving
item carries the same deduplication key string name::hotkey::command, and
kept items have pairwise distinct key strings.  Identical
(name, hotkey, command) triples always share the key, but distinct triples
may collide when a component embeds the :: delimiter, so not every item
whose triple is new is kept. -/
theorem c4_dedupe_by_key_string :
    ∀ l : List SkillUsage,
      sanitizeSkillLoop [] l = keepFirstOcc [] (l.filterMap sanitizeSkillItem) ∧
      (sanitizeSkillLoop [] l).Pairwise (fun a b => skillKey a ≠ skillKey b) := by
  intro l
  refine ⟨sanitizeSkillLoop_eq_keepFirstOcc l [] [] (by simp), ?_⟩
  exact (sanitizeSkillLoop_fresh_and_pairwise l []).2

/-- C4 counterexample: the items (name x::y, no hotkey) and (name x,
hotkey y::) differ in both name and hotkey yet collapse to one entry,
because their key strings coincide; this refutes the claim that items
whose triples differ in any component are all kept. -/
theorem c4_collision_counterexample :
    sanitize_entry
        ⟨"alice", 0, 0, "",
          [⟨"x::y", none, none⟩, ⟨"x", some "y::", none⟩], false⟩ =
      .ok ⟨"alice", 0, 0, "", [⟨"x::y", none, none⟩], false⟩ ∧
    sanitizeSkillItem ⟨"x", some "y::", none⟩ = some ⟨"x", some "y::", none⟩ ∧
    (⟨"x::y", none, none⟩ : SkillUsage) ≠ ⟨"x", some "y::", none⟩ := by
  exact ⟨by decide, by decide, by decide⟩

/-- The skill-usage loop never emits more items than it consumes. -/
theorem sanitizeSkillLoop_length_le :
    ∀ (l : List SkillUsage) (seen : List String),
      (sanitizeSkillLoop seen l).length ≤ l.length := by
  intro l
  induction l with
  | nil => intro seen; simp [sanitizeSkillLoop]
  | cons u rest ih =>
    intro seen
    unfold sanitizeSkillLoop
    cases hitem : sanitizeSkillItem u with
    | none => exact Nat.le_succ_of_le (ih seen)
    | some s =>
      by_cases hseen : seen.contains (skillKey s) = true
      · simp only [hseen, if_pos]
        exact Nat.le_succ_of_le (ih seen)
      · simp only [hseen, if_neg, Bool.false_eq_true, not_false_eq_true,
          List.length_cons]
        exact Nat.succ_le_succ (ih (skillKey s :: seen))

/-- Truncation to 20 characters of a nonempty trimmed name is nonempty. -/
theorem strTake_ne_empty (s : String) (h : s ≠ "") : strTake 20 s ≠ "" := by
  cases s with
  | mk data =>
    cases data with
    | nil => exact absurd rfl h
    | cons c cs =>
      intro hh
      have h2 : (String.mk ((c :: cs).take 20)).data = ("" : String).data :=
        congrArg String.data hh
      have h3 : c :: cs.take 19 = ([] : List Char) := h2
      exact List.noConfusion h3

/-- C7: the entry sanitizer fails with the empty-user-name error exactly
when the trimmed, 20-character-truncated user name is empty (a merely long
name is truncated, never rejected); on success the entry carries that
name, score and level clamped to be non-negative, the trimmed date, at
most the first 20 skill-usage items after the skill loop, and isMe =
false. -/
theorem c7_sanitize_entry_contract :
    (∀ e : ScoreEntry, sanitize_entry e = .error "score entry user is empty" ↔
      strTake 20 (rsTrim e.user) = "") ∧
    (∀ e r, sanitize_entry e = .ok r →
      r.user = strTake 20 (rsTrim e.user) ∧
      r.score = max e.score 0 ∧ 0 ≤ r.score ∧
      r.level = max e.level 0 ∧ 0 ≤ r.level ∧
      r.date = rsTrim e.date ∧
      r.skill_usage = sanitizeSkillLoop [] (e.skill_usage.take MAX_SKILL_USAGE_ITEMS) ∧
      r.skill_usage.length ≤ MAX_SKILL_USAGE_ITEMS ∧
      r.is_me = false) ∧
    (∀ e : ScoreEntry, rsTrim e.user ≠ "" → (sanitize_entry e).isOk = true) := by
  refine ⟨?_, ?_, ?_⟩
  · intro e
    unfold sanitize_entry
    by_cases h : strTake 20 (rsTrim e.user) = ""
    · simp [h]
    · simp [h]
  · intro e r h
    unfold sanitize_entry at h
    by_cases hu : strTake 20 (rsTrim e.user) = ""
    · rw [if_pos hu] at h
      exact absurd h (by simp)
    · rw [if_neg hu] at h
      cases h
      refine ⟨rfl, rfl, le_max_right _ _, rfl, le_max_right _ _, rfl, rfl, ?_, rfl⟩
      calc (sanitizeSkillLoop [] (e.skill_usage.take MAX_SKILL_USAGE_ITEMS)).length
          ≤ (e.skill_usage.take MAX_SKILL_USAGE_ITEMS).length :=
            sanitizeSkillLoop_length_le _ _
        _ ≤ MAX_SKILL_USAGE_ITEMS := List.length_take_le _ _
  · intro e h
    unfold sanitize_entry
    rw [if_neg (strTake_ne_empty _ h)]
    rfl

/-- C7 witness: a padded, negative-score entry sanitizes to the trimmed
name with clamped numbers and isMe cleared. -/
theorem c7_sanitize_entry_contract_witness :
    sanitize_entry ⟨"  bob  ", -5, -2, " d ", [], true⟩ =
      .ok ⟨"bob", 0, 0, "d", [], false⟩ ∧
    ((⟨"bob", 0, 0, "d", [], false⟩ : ScoreEntry).user =
        strTake 20 (rsTrim "  bob  ") ∧
      (⟨"bob", 0, 0, "d", [], false⟩ : ScoreEntry).score = max (-5) 0 ∧
      (0 : Int) ≤ (⟨"bob", 0, 0, "d", [], false⟩ : ScoreEntry).score ∧
      (⟨"bob", 0, 0, "d", [], false⟩ : ScoreEntry).level = max (-2) 0 ∧
      (0 : Int) ≤ (⟨"bob", 0, 0, "d", [], false⟩ : ScoreEntry).level ∧
      (⟨"bob", 0, 0, "d", [], false⟩ : ScoreEntry).date = rsTrim " d " ∧
      (⟨"bob", 0, 0, "d", [], false⟩ : ScoreEntry).skill_usage =
        sanitizeSkillLoop [] (([] : List SkillUsage).take MAX_SKILL_USAGE_ITEMS) ∧
      (⟨"bob", 0, 0, "d", [], false⟩ : ScoreEntry).skill_usage.length ≤
        MAX_SKILL_USAGE_ITEMS ∧
      (⟨"bob", 0, 0, "d", [], false⟩ : ScoreEntry).is_me = false) := by
  refine ⟨by decide, ?_⟩
  exact c7_sanitize_entry_contract.2.1 ⟨"  bob  ", -5, -2, " d ", [], true⟩
    ⟨"bob", 0, 0, "d", [], false⟩ (by decide)

/-- Inversion of the replay event loop: success means no event was
rejected, every event is retained with its move normalized, times are
non-negative, bounded below by the running bound, and non-decreasing. -/
theorem sanitizeInputs_ok :
    ∀ (l : List ReplayInputEvent) (t : Int) (out : List ReplayInputEvent),
      sanitizeInputs t l = .ok out →
      out = l.map (fun e => ⟨e.time, normalizeMove e.move_dir⟩) ∧
      (∀ x ∈ l, 0 ≤ x.time ∧ t ≤ x.time ∧ validMove (normalizeMove x.move_dir)) ∧
      List.Chain' (fun a b => a.time ≤ b.time) l := by
  intro l
  induction l with
  | nil =>
    intro t out h
    simp only [sanitizeInputs] at h
    cases h
    simp
  | cons e rest ih =>
    intro t out h
    simp only [sanitizeInputs] at h
    by_cases h1 : e.time < 0
    · rw [if_pos h1] at h
      exact absurd h (by simp)
    · rw [if_neg h1] at h
      by_cases h2 : e.time < t
      · rw [if_pos h2] at h
        exact absurd h (by simp)
      · rw [if_neg h2] at h
        by_cases h3 : normalizeMove e.move_dir = "left" ∨
            normalizeMove e.move_dir = "right" ∨ normalizeMove e.move_dir = "up" ∨
            normalizeMove e.move_dir = "down"
        · rw [if_pos h3] at h
          cases hrec : sanitizeInputs e.time rest with
          | error msg => rw [hrec] at h; exact absurd h (by simp)
          | ok tail =>
            rw [hrec] at h
            cases h
            obtain ⟨htail, hmem, hchain⟩ := ih e.time tail hrec
            refine ⟨by simp [htail], ?_, ?_⟩
            · intro x hx
              rcases List.mem_cons.mp hx with hx | hx
              · subst hx
                exact ⟨by omega, by omega, h3⟩
              · obtain ⟨ha, hb, hc⟩ := hmem x hx
                exact ⟨ha, by omega, hc⟩
            · cases rest with
              | nil => simp
              | cons y ys =>
                refine List.chain'_cons.mpr ⟨?_, hchain⟩
                exact (hmem y (List.mem_cons_self _ _)).2.1
        · rw [if_neg h3] at h
          exact absurd h (by simp)

/-- Inversion of the replay validator: a successful run pins the version,
the guards, and the sanitized input list. -/
theorem sanitize_daily_replay_proof_ok (p q : DailyReplayProof)
    (h : sanitize_daily_replay_proof p = .ok q) :
    p.version = 1 ∧ p.final_time ≤ MAX_DAILY_REPLAY_FINAL_TIME ∧
    q.final_time = p.final_time ∧
    q.inputs = (p.inputs.take MAX_DAILY_REPLAY_EVENTS).map
      (fun e => ⟨e.time, normalizeMove e.move_dir⟩) ∧
    (∀ x ∈ q.inputs, 0 ≤ x.time ∧ validMove x.move_dir) ∧
    List.Chain' (fun a b => a.time ≤ b.time) q.inputs ∧
    (∀ e, q.inputs.getLast? = some e → e.time ≤ q.final_time) := by
  unfold sanitize_daily_replay_proof at h
  by_cases h1 : p.version ≠ 1
  · rw [if_pos h1] at h; exact absurd h (by simp)
  · rw [if_neg h1] at h
    by_cases h2 : ¬ (p.difficulty = 1 ∨ p.difficulty = 2 ∨ p.difficulty = 3)
    · rw [if_pos h2] at h; exact absurd h (by simp)
    · rw [if_neg h2] at h
      by_cases h3 : p.final_time < 0 ∨ p.final_score < 0 ∨ p.final_level < 0
      · rw [if_pos h3] at h; exact absurd h (by simp)
      · rw [if_neg h3] at h
        by_cases h4 : MAX_DAILY_REPLAY_FINAL_TIME < p.final_time
        · rw [if_pos h4] at h; exact absurd h (by simp)
        · rw [if_neg h4] at h
          cases hrec : sanitizeInputs (-1) (p.inputs.take MAX_DAILY_REPLAY_EVENTS) with
          | error msg => rw [hrec] at h; exact absurd h (by simp)
          | ok out =>
            rw [hrec] at h
            dsimp only at h
            by_cases h5 : lastExceeds out p.final_time = true
            · rw [if_pos h5] at h; exact absurd h (by simp)
            · rw [if_neg h5] at h
              cases h
              obtain ⟨hout, hmem, hchain⟩ := sanitizeInputs_ok _ _ _ hrec
              refine ⟨by omega, by omega, rfl, hout, ?_, ?_, ?_⟩
              · intro x hx
                rw [hout] at hx
                obtain ⟨y, hy, hxy⟩ := List.mem_map.mp hx
                obtain ⟨ha, _, hc⟩ := hmem y hy
                subst hxy
                exact ⟨ha, hc⟩
              · rw [hout]
                refine (List.chain'_map _).mpr ?_
                exact hchain
              · intro e he
                unfold lastExceeds at h5
                rw [he] at h5
                show e.time ≤ p.final_time
                simp at h5
                omega

/-- C6: the replay validator fails whenever version differs from 1 or
finalTime exceeds 2000000; it is insensitive to events beyond the first
20000, which are dropped silently before validation; on success every
retained event keeps its time, has its move trimmed and lowercased to one
of the four directions, times are non-negative and non-decreasing, and
the last retained time does not exceed finalTime; concretely, times
[5, 3] fail, equal consecutive times pass, the token LEFT is accepted and
normalized to left, a final time of 2000001 fails, and a last event time
above finalTime fails. -/
theorem c6_replay_validator_spec :
    (∀ p : DailyReplayProof, p.version ≠ 1 ∨ MAX_DAILY_REPLAY_FINAL_TIME < p.final_time →
      (sanitize_daily_replay_proof p).isOk = false) ∧
    (∀ p : DailyReplayProof,
      sanitize_daily_replay_proof p =
        sanitize_daily_replay_proof { p with inputs := p.inputs.take MAX_DAILY_REPLAY_EVENTS }) ∧
    (∀ p q, sanitize_daily_replay_proof p = .ok q →
      q.inputs = (p.inputs.take MAX_DAILY_REPLAY_EVENTS).map
        (fun e => ⟨e.time, normalizeMove e.move_dir⟩) ∧
      (∀ x ∈ q.inputs, 0 ≤ x.time ∧ validMove x.move_dir) ∧
      List.Chain' (fun a b => a.time ≤ b.time) q.inputs ∧
      (∀ e, q.inputs.getLast? = some e → e.time ≤ q.final_time) ∧
      q.final_time = p.final_time) ∧
    (sanitize_daily_replay_proof
      ⟨1, 1, 0, 10, 0, 0, [⟨5, "left"⟩, ⟨3, "left"⟩]⟩).isOk = false ∧
    (sanitize_daily_replay_proof
      ⟨1, 1, 0, 10, 0, 0, [⟨4, "left"⟩, ⟨4, "up"⟩]⟩).isOk = true ∧
    sanitize_daily_replay_proof ⟨1, 1, 0, 10, 0, 0, [⟨0, "LEFT"⟩]⟩ =
      .ok ⟨1, 1, 0, 10, 0, 0, [⟨0, "left"⟩]⟩ ∧
    (sanitize_daily_replay_proof ⟨1, 1, 0, 2000001, 0, 0, []⟩).isOk = false ∧
    (sanitize_daily_replay_proof ⟨1, 1, 0, 5, 0, 0, [⟨10, "left"⟩]⟩).isOk = false := by
  refine ⟨?_, ?_, ?_, by decide, by decide, by decide, by decide, by decide⟩
  · intro p hd
    unfold sanitize_daily_replay_proof
    by_cases h1 : p.version ≠ 1
    · rw [if_pos h1]; rfl
    · rw [if_neg h1]
      by_cases h2 : ¬ (p.difficulty = 1 ∨ p.difficulty = 2 ∨ p.difficulty = 3)
      · rw [if_pos h2]; rfl
      · rw [if_neg h2]
        by_cases h3 : p.final_time < 0 ∨ p.final_score < 0 ∨ p.final_level < 0
        · rw [if_pos h3]; rfl
        · rw [if_neg h3]
          by_cases h4 : MAX_DAILY_REPLAY_FINAL_TIME < p.final_time
          · rw [if_pos h4]; rfl
          · rcases hd with hd | hd
            · exact absurd hd h1
            · exact absurd hd h4
  · intro p
    simp [sanitize_daily_replay_proof, List.take_take]
  · intro p q h
    obtain ⟨_, _, hft, hout, hmem, hchain, hlast⟩ :=
      sanitize_daily_replay_proof_ok p q h
    exact ⟨hout, hmem, hchain, hlast, hft⟩

/-- C6 witness: the LEFT token example satisfies the success
characterization. -/
theorem c6_replay_validator_spec_witness :
    sanitize_daily_replay_proof ⟨1, 1, 0, 10, 0, 0, [⟨0, "LEFT"⟩]⟩ =
      .ok ⟨1, 1, 0, 10, 0, 0, [⟨0, "left"⟩]⟩ ∧
    (⟨1, 1, 0, 10, 0, 0, [⟨0, "left"⟩]⟩ : DailyReplayProof).inputs =
      (([⟨0, "LEFT"⟩] : List ReplayInputEvent).take MAX_DAILY_REPLAY_EVENTS).map
        (fun e => ⟨e.time, normalizeMove e.move_dir⟩) := by
  refine ⟨by decide, ?_⟩
  exact (c6_replay_validator_spec.2.2.1 ⟨1, 1, 0, 10, 0, 0, [⟨0, "LEFT"⟩]⟩
    ⟨1, 1, 0, 10, 0, 0, [⟨0, "left"⟩]⟩ (by decide)).1

/-- Totality of the character-list order. -/
theorem charsLeb_total : ∀ x y : List Char, charsLeb x y = true ∨ charsLeb y x = true := by
  intro x
  induction x with
  | nil => intro y; left; rfl
  | cons a as ih =>
    intro y
    cases y with
    | nil => right; rfl
    | cons b bs =>
      simp only [charsLeb]
      by_cases h1 : a.toNat < b.toNat
      · simp [h1]
      · by_cases h2 : b.toNat < a.toNat
        · simp [h1, h2]
        · simpa [h1, h2] using ih bs

/-- Transitivity of the character-list order. -/
theorem charsLeb_trans :
    ∀ x y z : List Char, charsLeb x y = true → charsLeb y z = true →
      charsLeb x z = true := by
  intro x
  induction x with
  | nil => intro y z _ _; rfl
  | cons a as ih =>
    intro y z hxy hyz
    cases y with
    | nil => exact absurd hxy (by simp [charsLeb])
    | cons b bs =>
      cases z with
      | nil => exact absurd hyz (by simp [charsLeb])
      | cons c cs =>
        simp only [charsLeb] at hxy hyz ⊢
        by_cases h1 : a.toNat < b.toNat
        · by_cases h3 : b.toNat < c.toNat
          · simp [show a.toNat < c.toNat by omega]
          · by_cases h4 : c.toNat < b.toNat
            · rw [if_neg h3, if_pos h4] at hyz
              exact absurd hyz (by simp)
            · simp [show a.toNat < c.toNat by omega]
        · by_cases h2 : b.toNat < a.toNat
          · rw [if_neg h1, if_pos h2] at hxy
            exact absurd hxy (by simp)
          · rw [if_neg h1, if_neg h2] at hxy
            by_cases h3 : b.toNat < c.toNat
            · simp [show a.toNat < c.toNat by omega]
            · by_cases h4 : c.toNat < b.toNat
              · rw [if_neg h3, if_pos h4] at hyz
                exact absurd hyz (by simp)
              · rw [if_neg h3, if_neg h4] at hyz
                rw [if_neg (show ¬ a.toNat < c.toNat by omega),
                  if_neg (show ¬ c.toNat < a.toNat by omega)]
                exact ih bs cs hxy hyz

/-- Totality of the string order. -/
theorem strRel_total (a b : String) : strRel a b ∨ strRel b a :=
  charsLeb_total a.data b.data

/-- Transitivity of the string order. -/
theorem strRel_trans {a b c : String} (h1 : strRel a b) (h2 : strRel b c) :
    strRel a c :=
  charsLeb_trans a.data b.data c.data h1 h2

/-- Totality of the ranking order of sort_and_dedupe. -/
theorem rankRel_total : ∀ a b : ScoreEntry, rankRel a b ∨ rankRel b a := by
  intro a b
  unfold rankRel
  rcases lt_trichotomy a.score b.score with h | h | h
  · right; left; exact h
  · rcases lt_trichotomy a.level b.level with h2 | h2 | h2
    · right; right; exact ⟨h.symm, Or.inl h2⟩
    · rcases strRel_total b.date a.date with h3 | h3
      · left; right; exact ⟨h, Or.inr ⟨h2, h3⟩⟩
      · right; right; exact ⟨h.symm, Or.inr ⟨h2.symm, h3⟩⟩
    · left; right; exact ⟨h, Or.inl h2⟩
  · left; left; exact h

/-- Transitivity of the ranking order of sort_and_dedupe. -/
theorem rankRel_trans : ∀ a b c : ScoreEntry, rankRel a b → rankRel b c → rankRel a c := by
  intro a b c hab hbc
  unfold rankRel at *
  rcases hab with h1 | ⟨h1, h1b⟩
  · rcases hbc with h2 | ⟨h2, _⟩
    · left; omega
    · left; omega
  · rcases hbc with h2 | ⟨h2, h2b⟩
    · left; omega
    · right
      refine ⟨by omega, ?_⟩
      rcases h1b with h3 | ⟨h3, h3b⟩
      · rcases h2b with h4 | ⟨h4, _⟩
        · left; omega
        · left; omega
      · rcases h2b with h4 | ⟨h4, h4b⟩
        · left; omega
        · right
          exact ⟨by omega, strRel_trans h4b h3b⟩

instance : IsTotal ScoreEntry rankRel := ⟨rankRel_total⟩

instance : IsTrans ScoreEntry rankRel := ⟨rankRel_trans⟩

/-- The cache deduplication key ignores the is_me flag folded by the
merge. -/
theorem cacheKey_fold (x e : ScoreEntry) :
    cacheKey { x with is_me := x.is_me || e.is_me } = cacheKey x := rfl

/-- The deduplication fold only produces entries with pairwise distinct
cache keys. -/
theorem dedupe_distinct :
    ∀ (l acc : List ScoreEntry),
      acc.Pairwise (fun a b => cacheKey a ≠ cacheKey b) →
      (List.foldl dedupeStep acc l).Pairwise (fun a b => cacheKey a ≠ cacheKey b) := by
  intro l
  induction l with
  | nil => intro acc h; simpa using h
  | cons e rest ih =>
    intro acc h
    rw [List.foldl_cons]
    apply ih
    unfold dedupeStep
    by_cases hany : acc.any (fun x => cacheKey x == cacheKey e) = true
    · rw [if_pos hany]
      refine List.pairwise_map.mpr (h.imp ?_)
      intro a b hab
      by_cases hka : cacheKey a == cacheKey e <;>
        by_cases hkb : cacheKey b == cacheKey e <;>
        simp [hka, hkb, cacheKey_fold, hab]
    · rw [if_neg hany]
      rw [List.pairwise_append]
      refine ⟨h, by simp, ?_⟩
      intro a ha b hb
      have hb2 : b = e := by simpa using hb
      subst hb2
      have := List.any_eq_false.mp (Bool.of_not_eq_true hany) a ha
      simpa using this

/-- Folding entries whose keys are pairwise distinct and disjoint from the
accumulator appends them unchanged. -/
theorem dedupe_fresh :
    ∀ (l acc : List ScoreEntry),
      l.Pairwise (fun a b => cacheKey a ≠ cacheKey b) →
      (∀ a ∈ acc, ∀ b ∈ l, cacheKey a ≠ cacheKey b) →
      List.foldl dedupeStep acc l = acc ++ l := by
  intro l
  induction l with
  | nil => intro acc _ _; simp
  | cons e rest ih =>
    intro acc hp hd
    rw [List.foldl_cons]
    have hany : acc.any (fun x => cacheKey x == cacheKey e) = false := by
      rw [List.any_eq_false]
      intro x hx
      simpa using hd x hx e (List.mem_cons_self _ _)
    have hstep : dedupeStep acc e = acc ++ [e] := by
      unfold dedupeStep
      rw [hany]
      simp
    rw [hstep]
    have hrest : List.foldl dedupeStep (acc ++ [e]) rest = (acc ++ [e]) ++ rest := by
      refine ih (acc ++ [e]) hp.of_cons ?_
      intro a ha b hb
      rcases List.mem_append.mp ha with ha | ha
      · exact hd a ha b (List.mem_cons_of_mem _ hb)
      · have ha2 : a = e := by simpa using ha
        subst ha2
        exact (List.pairwise_cons.mp hp).1 b hb
    rw [hrest]
    simp

/-- The result of sort_and_dedupe is sorted by the ranking order. -/
theorem sort_and_dedupe_pairwise (l : List ScoreEntry) :
    (sort_and_dedupe l).Pairwise rankRel :=
  List.sorted_insertionSort rankRel _

/-- The result of sort_and_dedupe has pairwise distinct cache keys. -/
theorem sort_and_dedupe_distinct (l : List ScoreEntry) :
    (sort_and_dedupe l).Pairwise (fun a b => cacheKey a ≠ cacheKey b) := by
  unfold sort_and_dedupe sortEntries
  have h := dedupe_distinct (List.insertionSort rankRel l) [] (by simp)
  have hp := List.perm_insertionSort rankRel
    (List.foldl dedupeStep [] (List.insertionSort rankRel l))
  exact (hp.pairwise_iff (fun hxy => hxy.symm)).mpr h

/-- A list that is already sorted with pairwise distinct keys is a fixed
point of sort_and_dedupe. -/
theorem sort_and_dedupe_fixed (l : List ScoreEntry)
    (h1 : l.Pairwise rankRel)
    (h2 : l.Pairwise (fun a b => cacheKey a ≠ cacheKey b)) :
    sort_and_dedupe l = l := by
  unfold sort_and_dedupe sortEntries
  rw [List.Sorted.insertionSort_eq h1]
  rw [dedupe_fresh l [] h2 (by simp)]
  rw [List.nil_append]
  exact List.Sorted.insertionSort_eq h1

/-- truncate_cache keeps a prefix. -/
theorem truncate_cache_sublist (l : List ScoreEntry) :
    (truncate_cache l).Sublist l := by
  unfold truncate_cache
  split
  · exact List.take_sublist _ _
  · exact List.Sublist.refl l

/-- truncate_cache never exceeds the cache bound. -/
theorem truncate_cache_length (l : List ScoreEntry) :
    (truncate_cache l).length ≤ CACHE_MAX_ENTRIES := by
  unfold truncate_cache
  split
  · rw [List.length_take]
    exact Nat.min_le_left _ _
  · next h => omega

/-- truncate_cache leaves short lists unchanged. -/
theorem truncate_cache_of_le (l : List ScoreEntry)
    (h : l.length ≤ CACHE_MAX_ENTRIES) : truncate_cache l = l := by
  unfold truncate_cache
  rw [if_neg (by omega)]

/-- Every possible sort_and_dedupe output is sorted by the ranking
order. -/
theorem outcome_sorted (l out : List ScoreEntry)
    (h : sort_and_dedupe_outcome l out) : out.Pairwise rankRel := by
  obtain ⟨v, _, rfl⟩ := h
  exact List.sorted_insertionSort rankRel v

/-- Every possible sort_and_dedupe output has pairwise distinct cache
keys. -/
theorem outcome_distinct (l out : List ScoreEntry)
    (h : sort_and_dedupe_outcome l out) :
    out.Pairwise (fun a b => cacheKey a ≠ cacheKey b) := by
  obtain ⟨v, hv, rfl⟩ := h
  have hD := dedupe_distinct (sortEntries l) [] (by simp)
  have hv2 := (hv.pairwise_iff (fun hxy => hxy.symm)).mpr hD
  exact ((List.perm_insertionSort rankRel v).pairwise_iff
    (fun hxy => hxy.symm)).mpr hv2

/-- On an already sorted, key-distinct list every possible re-run of
sort_and_dedupe returns a permutation of that list. -/
theorem outcome_perm_of_processed (inp out : List ScoreEntry)
    (hs : inp.Pairwise rankRel)
    (hd : inp.Pairwise (fun a b => cacheKey a ≠ cacheKey b))
    (h : sort_and_dedupe_outcome inp out) : out.Perm inp := by
  obtain ⟨v, hv, rfl⟩ := h
  have hfix : (sortEntries inp).foldl dedupeStep [] = inp := by
    have h1 : sortEntries inp = inp := List.Sorted.insertionSort_eq hs
    rw [h1, dedupe_fresh inp [] hd (by simp)]
    rfl
  exact (List.perm_insertionSort rankRel v).trans (hfix ▸ hv)

/-- C5 counterexample: two rank-tied entries with distinct dedup keys can
be returned in either order, because the HashMap drain order is
unspecified; a first run may return the pair in one order and a second
run on that output may return the swapped pair, so re-applying
sort_and_dedupe does not always reproduce the same list in the same
order. -/
theorem c5_order_counterexample :
    sort_and_dedupe_outcome
      [⟨"a", 1, 1, "d", [], false⟩, ⟨"bb", 1, 1, "d", [], false⟩]
      [⟨"a", 1, 1, "d", [], false⟩, ⟨"bb", 1, 1, "d", [], false⟩] ∧
    sort_and_dedupe_outcome
      [⟨"a", 1, 1, "d", [], false⟩, ⟨"bb", 1, 1, "d", [], false⟩]
      [⟨"bb", 1, 1, "d", [], false⟩, ⟨"a", 1, 1, "d", [], false⟩] ∧
    ([⟨"bb", 1, 1, "d", [], false⟩, ⟨"a", 1, 1, "d", [], false⟩] :
        List ScoreEntry) ≠
      [⟨"a", 1, 1, "d", [], false⟩, ⟨"bb", 1, 1, "d", [], false⟩] :=
  ⟨⟨[⟨"a", 1, 1, "d", [], false⟩, ⟨"bb", 1, 1, "d", [], false⟩],
      by decide, by decide⟩,
    ⟨[⟨"bb", 1, 1, "d", [], false⟩, ⟨"a", 1, 1, "d", [], false⟩],
      by decide, by decide⟩,
    by decide⟩

/-- C5 amended: sort_and_dedupe is idempotent up to reordering of
rank-tied entries: whatever drain orders the two runs use, re-running it
on a previous output returns a permutation of that output, sorted by the
ranking order like the output itself; and re-running it followed by
truncate_cache on an already processed, truncated list returns a sorted
permutation of that list on which the truncation is a no-op. -/
theorem c5_sort_and_dedupe_idempotent_up_to_ties :
    (∀ l out1 out2, sort_and_dedupe_outcome l out1 →
      sort_and_dedupe_outcome out1 out2 →
      out2.Perm out1 ∧ out2.Pairwise rankRel ∧ out1.Pairwise rankRel) ∧
    (∀ l out1 out2, sort_and_dedupe_outcome l out1 →
      sort_and_dedupe_outcome (truncate_cache out1) out2 →
      out2.Perm (truncate_cache out1) ∧ out2.Pairwise rankRel ∧
      truncate_cache out2 = out2) := by
  constructor
  · intro l out1 out2 h1 h2
    exact ⟨outcome_perm_of_processed out1 out2 (outcome_sorted l out1 h1)
        (outcome_distinct l out1 h1) h2,
      outcome_sorted out1 out2 h2, outcome_sorted l out1 h1⟩
  · intro l out1 out2 h1 h2
    have hsub := truncate_cache_sublist out1
    have hperm := outcome_perm_of_processed (truncate_cache out1) out2
      (List.Pairwise.sublist hsub (outcome_sorted l out1 h1))
      (List.Pairwise.sublist hsub (outcome_distinct l out1 h1)) h2
    refine ⟨hperm, outcome_sorted _ out2 h2, ?_⟩
    apply truncate_cache_of_le
    rw [hperm.length_eq]
    exact truncate_cache_length out1

/-- C5 witness: the two-run trace on the tied pair satisfies the
up-to-ties idempotence. -/
theorem c5_sort_and_dedupe_idempotent_up_to_ties_witness :
    sort_and_dedupe_outcome
      [⟨"a", 1, 1, "d", [], false⟩, ⟨"bb", 1, 1, "d", [], false⟩]
      [⟨"a", 1, 1, "d", [], false⟩, ⟨"bb", 1, 1, "d", [], false⟩] ∧
    sort_and_dedupe_outcome
      [⟨"a", 1, 1, "d", [], false⟩, ⟨"bb", 1, 1, "d", [], false⟩]
      [⟨"bb", 1, 1, "d", [], false⟩, ⟨"a", 1, 1, "d", [], false⟩] ∧
    (([⟨"bb", 1, 1, "d", [], false⟩, ⟨"a", 1, 1, "d", [], false⟩] :
        List ScoreEntry).Perm
      [⟨"a", 1, 1, "d", [], false⟩, ⟨"bb", 1, 1, "d", [], false⟩] ∧
      ([⟨"bb", 1, 1, "d", [], false⟩, ⟨"a", 1, 1, "d", [], false⟩] :
        List ScoreEntry).Pairwise rankRel ∧
      ([⟨"a", 1, 1, "d", [], false⟩, ⟨"bb", 1, 1, "d", [], false⟩] :
        List ScoreEntry).Pairwise rankRel) :=
  ⟨⟨[⟨"a", 1, 1, "d", [], false⟩, ⟨"bb", 1, 1, "d", [], false⟩],
      by decide, by decide⟩,
    ⟨[⟨"bb", 1, 1, "d", [], false⟩, ⟨"a", 1, 1, "d", [], false⟩],
      by decide, by decide⟩,
    c5_sort_and_dedupe_idempotent_up_to_ties.1
      [⟨"a", 1, 1, "d", [], false⟩, ⟨"bb", 1, 1, "d", [], false⟩]
      [⟨"a", 1, 1, "d", [], false⟩, ⟨"bb", 1, 1, "d", [], false⟩]
      [⟨"bb", 1, 1, "d", [], false⟩, ⟨"a", 1, 1, "d", [], false⟩]
      ⟨[⟨"a", 1, 1, "d", [], false⟩, ⟨"bb", 1, 1, "d", [], false⟩],
        by decide, by decide⟩
      ⟨[⟨"bb", 1, 1, "d", [], false⟩, ⟨"a", 1, 1, "d", [], false⟩],
        by decide, by decide⟩⟩

/-- C8: for a submit-classic-score call whose entry and replay proof both
sanitize, the sanitized entry with isMe set is merged into the cache and
the cache write precedes the remote submission in the action order; a
remote failure is swallowed, so the call still returns success and the
outcome is identical to the one with a successful remote call: the local
write is never undone. -/
theorem c8_submit_local_write_first (disk : Option (List ScoreEntry))
    (entry : ScoreEntry) (rp : DailyReplayProof) (url akey : Option String)
    (cfg : SupabaseConfig) (u : String) (sanitized : ScoreEntry)
    (proof : DailyReplayProof) (msg : String)
    (h1 : sanitize_entry entry = .ok sanitized)
    (h2 : sanitize_daily_replay_proof rp = .ok proof)
    (h3 : normalize_supabase_config url akey = some cfg) :
    submit_global_score disk entry rp url akey (.ok u) (.error msg) =
      { result := .ok ()
        actions := [SubmitAction.cacheWrite (truncate_cache (sort_and_dedupe
            (read_cache_model disk ++ [{ sanitized with is_me := true }]))),
          SubmitAction.remoteSubmit { sanitized with is_me := true } proof u] } ∧
    submit_global_score disk entry rp url akey (.ok u) (.error msg) =
      submit_global_score disk entry rp url akey (.ok u) (.ok ()) := by
  unfold submit_global_score
  rw [h1, h2, h3]
  exact ⟨rfl, rfl⟩

/-- C8 witness: a concrete submission with a failing remote records the
cache write before the remote submission and still succeeds. -/
theorem c8_submit_local_write_first_witness :
    sanitize_entry ⟨" al ", -1, 0, "", [], false⟩ =
      .ok ⟨"al", 0, 0, "", [], false⟩ ∧
    sanitize_daily_replay_proof ⟨1, 1, 0, 0, 0, 0, []⟩ =
      .ok ⟨1, 1, 0, 0, 0, 0, []⟩ ∧
    normalize_supabase_config (some "u") (some "k") = some ⟨"u", "k"⟩ ∧
    (submit_global_score none ⟨" al ", -1, 0, "", [], false⟩ ⟨1, 1, 0, 0, 0, 0, []⟩
        (some "u") (some "k") (.ok "dev") (.error "boom") =
      { result := .ok ()
        actions := [SubmitAction.cacheWrite (truncate_cache (sort_and_dedupe
            (read_cache_model none ++
              [{ (⟨"al", 0, 0, "", [], false⟩ : ScoreEntry) with is_me := true }]))),
          SubmitAction.remoteSubmit
            { (⟨"al", 0, 0, "", [], false⟩ : ScoreEntry) with is_me := true }
            ⟨1, 1, 0, 0, 0, 0, []⟩ "dev"] } ∧
      submit_global_score none ⟨" al ", -1, 0, "", [], false⟩ ⟨1, 1, 0, 0, 0, 0, []⟩
          (some "u") (some "k") (.ok "dev") (.error "boom") =
        submit_global_score none ⟨" al ", -1, 0, "", [], false⟩ ⟨1, 1, 0, 0, 0, 0, []⟩
          (some "u") (some "k") (.ok "dev") (.ok ())) :=
  ⟨by decide, by decide, by decide,
    c8_submit_local_write_first none ⟨" al ", -1, 0, "", [], false⟩
      ⟨1, 1, 0, 0, 0, 0, []⟩ (some "u") (some "k") ⟨"u", "k"⟩ "dev"
      ⟨"al", 0, 0, "", [], false⟩ ⟨1, 1, 0, 0, 0, 0, []⟩ "boom"
      (by decide) (by decide) (by decide)⟩

/-- C9: when the configuration is present and the remote fetch succeeds,
fetch_global_scores returns the decoded Registry list verbatim, in the
Registry order, while the merged, deduped, truncated union of cache and
remote entries is only written to the cache file. -/
theorem c9_fetch_returns_remote_verbatim (disk : Option (List ScoreEntry))
    (limit : Option Nat) (url akey : Option String) (cfg : SupabaseConfig)
    (rs : List ScoreEntry)
    (h : normalize_supabase_config url akey = some cfg) :
    fetch_global_scores disk limit url akey (.ok rs) =
      { result := .ok rs
        written := some (truncate_cache (sort_and_dedupe
          (read_cache_model disk ++ rs))) } := by
  unfold fetch_global_scores
  rw [h]

/-- C9 witness: a concrete fetch returns the two remote entries untouched
and writes the merged cache. -/
theorem c9_fetch_returns_remote_verbatim_witness :
    normalize_supabase_config (some "u") (some "k") = some ⟨"u", "k"⟩ ∧
    fetch_global_scores none none (some "u") (some "k")
        (.ok [⟨"b", 1, 1, "d", [], false⟩, ⟨"a", 9, 1, "d", [], false⟩]) =
      { result := .ok [⟨"b", 1, 1, "d", [], false⟩, ⟨"a", 9, 1, "d", [], false⟩]
        written := some (truncate_cache (sort_and_dedupe (read_cache_model none ++
          [⟨"b", 1, 1, "d", [], false⟩, ⟨"a", 9, 1, "d", [], false⟩]))) } :=
  ⟨by decide,
    c9_fetch_returns_remote_verbatim none none (some "u") (some "k") ⟨"u", "k"⟩
      [⟨"b", 1, 1, "d", [], false⟩, ⟨"a", 9, 1, "d", [], false⟩] (by decide)⟩

/-- Dropping while a predicate holds ignores an all-satisfying block in
front. -/
theorem dropWhile_all_append (p : Char → Bool) :
    ∀ (pre x : List Char), (∀ c ∈ pre, p c = true) →
      (pre ++ x).dropWhile p = x.dropWhile p := by
  intro pre
  induction pre with
  | nil => intro x _; rfl
  | cons c cs ih =>
    intro x h
    rw [List.cons_append, List.dropWhile_cons_of_pos (h c (List.mem_cons_self _ _))]
    exact ih x (fun d hd => h d (List.mem_cons_of_mem _ hd))

/-- A list fixed by dropWhile starts with a failing character. -/
theorem dropWhile_fixed_head (p : Char → Bool) (c : Char) (cs : List Char)
    (h : (c :: cs).dropWhile p = c :: cs) : p c = false := by
  by_cases hc : p c = true
  · rw [List.dropWhile_cons_of_pos hc] at h
    have h1 := (List.dropWhile_sublist (l := cs) p).length_le
    have h2 : (cs.dropWhile p).length = cs.length + 1 := by rw [h]; simp
    omega
  · simpa using hc

/-- Taking a front part of a dropWhile-fixed list stays fixed. -/
theorem dropWhile_fixed_take (p : Char → Bool) :
    ∀ (x : List Char) (n : Nat), x.dropWhile p = x →
      (x.take n).dropWhile p = x.take n := by
  intro x n h
  cases x with
  | nil => simp
  | cons c cs =>
    cases n with
    | zero => simp
    | succ n =>
      have hc := dropWhile_fixed_head p c cs h
      rw [List.take_succ_cons, List.dropWhile_cons_of_neg (by simp [hc])]

/-- dropWhile is idempotent. -/
theorem dropWhile_idem (p : Char → Bool) :
    ∀ l : List Char, (l.dropWhile p).dropWhile p = l.dropWhile p := by
  intro l
  induction l with
  | nil => rfl
  | cons c cs ih =>
    by_cases h : p c = true
    · rw [List.dropWhile_cons_of_pos h]
      exact ih
    · rw [List.dropWhile_cons_of_neg (by simp [h]),
        List.dropWhile_cons_of_neg (by simp [h])]

/-- The trailing-whitespace drop keeps a front part of the list. -/
theorem dropTrailWs_take (m : List Char) :
    dropTrailWs m = m.take (dropTrailWs m).length := by
  obtain ⟨t, ht⟩ := List.dropWhile_suffix (l := m.reverse) (p := rsTrimWs)
  have hm : dropTrailWs m ++ t.reverse = m := by
    unfold dropTrailWs
    rw [← List.reverse_append, ht, List.reverse_reverse]
  calc dropTrailWs m
      = (dropTrailWs m ++ t.reverse).take (dropTrailWs m).length :=
        (List.take_left _ _).symm
    _ = m.take (dropTrailWs m).length := by rw [hm]

/-- Dropping leading whitespace after a trailing drop does nothing when
the original list had no leading whitespace. -/
theorem dropWhile_dropTrailWs (m : List Char) (h : m.dropWhile rsTrimWs = m) :
    (dropTrailWs m).dropWhile rsTrimWs = dropTrailWs m := by
  rw [dropTrailWs_take m]
  exact dropWhile_fixed_take _ m _ h

/-- The trailing-whitespace drop is idempotent. -/
theorem dropTrailWs_idem (m : List Char) :
    dropTrailWs (dropTrailWs m) = dropTrailWs m := by
  unfold dropTrailWs
  rw [List.reverse_reverse, dropWhile_idem]

/-- The two-sided trim is idempotent. -/
theorem trimChars_idem (l : List Char) : trimChars (trimChars l) = trimChars l := by
  unfold trimChars
  rw [dropWhile_dropTrailWs _ (dropWhile_idem _ _), dropTrailWs_idem]

/-- The string trim model is idempotent. -/
theorem rsTrim_idem (s : String) : rsTrim (rsTrim s) = rsTrim s := by
  show String.mk (trimChars (trimChars s.data)) = String.mk (trimChars s.data)
  rw [trimChars_idem]

/-- The key validator only sees the trimmed key. -/
theorem normalize_trim (raw : String) :
    normalize_daily_challenge_key raw = normalize_daily_challenge_key (rsTrim raw) := by
  rw [normalize_eq_wf raw, normalize_eq_wf (rsTrim raw), rsTrim_idem]

/-- An accepted key is the trimmed input. -/
theorem normalize_ok_trim (raw k : String)
    (h : normalize_daily_challenge_key raw = .ok k) : k = rsTrim raw := by
  rw [normalize_eq_wf] at h
  by_cases hw : wellFormedKey (rsTrim raw) = true
  · rw [if_pos hw] at h
    cases h
    rfl
  · rw [if_neg hw] at h
    exact absurd h (by simp)

/-- Trimming a padded list recovers the core when the padding is
whitespace and the core neither starts nor ends with whitespace. -/
theorem trimChars_pad (pre core post : List Char)
    (hpre : ∀ c ∈ pre, rsTrimWs c = true)
    (hpost : ∀ c ∈ post, rsTrimWs c = true)
    (hhead : ∀ c, core.head? = some c → rsTrimWs c = false)
    (hlast : ∀ c, core.getLast? = some c → rsTrimWs c = false) :
    trimChars (pre ++ (core ++ post)) = core := by
  unfold trimChars
  rw [dropWhile_all_append _ pre _ hpre]
  cases core with
  | nil =>
    rw [List.nil_append]
    have h1 : post.dropWhile rsTrimWs = [] := by
      have := dropWhile_all_append rsTrimWs post [] hpost
      simpa using this
    rw [h1]
    rfl
  | cons a as =>
    have ha : rsTrimWs a = false := hhead a rfl
    rw [List.cons_append, List.dropWhile_cons_of_neg (by simp [ha])]
    show dropTrailWs (a :: (as ++ post)) = a :: as
    have hsplit : a :: (as ++ post) = (a :: as) ++ post := by simp
    unfold dropTrailWs
    rw [hsplit, List.reverse_append]
    rw [dropWhile_all_append _ post.reverse _
      (fun c hc => hpost c (List.mem_reverse.mp hc))]
    cases hrev : (a :: as).reverse with
    | nil => exact absurd hrev (by simp)
    | cons b bs =>
      have hb : rsTrimWs b = false := by
        apply hlast
        rw [← List.head?_reverse, hrev]
        rfl
      rw [List.dropWhile_cons_of_neg (by simp [hb]), ← hrev, List.reverse_reverse]

/-- A character in the digit byte range is not whitespace. -/
theorem digit_not_ws (c : Char) (h1 : 48 ≤ c.toNat) (h2 : c.toNat ≤ 57) :
    rsTrimWs c = false := by
  unfold rsTrimWs
  cases hb : c.isWhitespace with
  | false => rfl
  | true =>
    exfalso
    have hd := hb
    simp [Char.isWhitespace] at hd
    rcases hd with ((h | h) | h) | h <;> (subst h; exact absurd h1 (by decide))

/-- The indexed format loop pins the checks at the first and last
position. -/
theorem keyPatternOkFrom_ends :
    ∀ (cs : List Char) (i : Nat), keyPatternOkFrom i cs = true →
      (∀ c, cs.head? = some c → keyCharOk i c = true) ∧
      (∀ c, cs.getLast? = some c → keyCharOk (i + cs.length - 1) c = true) := by
  intro cs
  induction cs with
  | nil =>
    intro i _
    constructor <;> (intro c hc; exact absurd hc (by simp))
  | cons a rest ih =>
    intro i h
    rw [keyPatternOkFrom, Bool.and_eq_true] at h
    obtain ⟨h1, h2⟩ := h
    constructor
    · intro c hc
      have hca : c = a := by
        have : some a = some c := hc
        exact (Option.some.inj this).symm
      subst hca
      exact h1
    · intro c hc
      cases rest with
      | nil =>
        have hca : c = a := by
          have : some a = some c := hc
          exact (Option.some.inj this).symm
        subst hca
        simpa using h1
      | cons b bs =>
        have hc2 : (b :: bs).getLast? = some c := by
          rwa [List.getLast?_cons_cons] at hc
        have hres := (ih (i + 1) h2).2 c hc2
        have heq : i + (a :: b :: bs).length - 1 = i + 1 + (b :: bs).length - 1 := by
          simp
          omega
        rw [heq]
        exact hres

/-- A well-formed challenge key starts and ends with a digit, hence not
with whitespace. -/
theorem wellFormedKey_ends (core : String) (h : wellFormedKey core = true) :
    (∀ c, core.data.head? = some c → rsTrimWs c = false) ∧
    (∀ c, core.data.getLast? = some c → rsTrimWs c = false) := by
  unfold wellFormedKey at h
  rw [Bool.and_eq_true, decide_eq_true_iff] at h
  obtain ⟨hlen, hpat⟩ := h
  have hp := keyPatternOkFrom_ends core.data 0 hpat
  constructor
  · intro c hc
    have h1 := hp.1 c hc
    unfold keyCharOk at h1
    rw [if_neg (by omega)] at h1
    have hd := of_decide_eq_true h1
    exact digit_not_ws c hd.1 hd.2
  · intro c hc
    have h1 := hp.2 c hc
    unfold keyCharOk at h1
    rw [hlen] at h1
    rw [if_neg (by omega)] at h1
    have hd := of_decide_eq_true h1
    exact digit_not_ws c hd.1 hd.2

/-- A whitespace-padded well-formed key normalizes to its core. -/
theorem normalize_pad (pre post : List Char) (core : String)
    (hpre : ∀ c ∈ pre, rsTrimWs c = true)
    (hpost : ∀ c ∈ post, rsTrimWs c = true)
    (h : wellFormedKey core = true) :
    normalize_daily_challenge_key (String.mk (pre ++ core.data ++ post)) = .ok core := by
  obtain ⟨hhead, hlast⟩ := wellFormedKey_ends core h
  have htrim : rsTrim (String.mk (pre ++ core.data ++ post)) = core := by
    show String.mk (trimChars (pre ++ core.data ++ post)) = core
    rw [List.append_assoc, trimChars_pad pre core.data post hpre hpost hhead hlast]
  rw [normalize_eq_wf, htrim, if_pos h]

/-- The daily-status result echoes the trimmed challenge key. -/
theorem fetch_daily_status_echo (key : String) (url akey : Option String)
    (uuid : Except String String)
    (remote : String → Except String RemoteDailyAttemptStatus)
    (st : DailyStatus) (h : fetch_daily_status key url akey uuid remote = .ok st) :
    st.challenge_key = rsTrim key := by
  unfold fetch_daily_status at h
  cases hnorm : normalize_daily_challenge_key key with
  | error e => rw [hnorm] at h; exact absurd h (by simp)
  | ok nk =>
    rw [hnorm] at h
    dsimp only at h
    cases hcfg : normalize_supabase_config url akey with
    | none => rw [hcfg] at h; exact absurd h (by simp)
    | some cfg =>
      rw [hcfg] at h
      dsimp only at h
      cases uuid with
      | error e => exact absurd h (by simp)
      | ok u =>
        dsimp only at h
        cases hrem : remote nk with
        | error e => rw [hrem] at h; exact absurd h (by simp)
        | ok rs =>
          rw [hrem] at h
          dsimp only at h
          cases h
          have hk := normalize_ok_trim key nk hnorm
          subst hk
          rfl

/-- The start result echoes the trimmed challenge key. -/
theorem start_daily_attempt_echo (key : String) (url akey : Option String)
    (uuid : Except String String)
    (remote : String → Except String DailyAttemptStartResult)
    (st : DailyAttemptStartResult)
    (h : start_daily_attempt key url akey uuid remote = .ok st) :
    st.challenge_key = rsTrim key := by
  unfold start_daily_attempt at h
  cases hnorm : normalize_daily_challenge_key key with
  | error e => rw [hnorm] at h; exact absurd h (by simp)
  | ok nk =>
    rw [hnorm] at h
    dsimp only at h
    cases hcfg : normalize_supabase_config url akey with
    | none => rw [hcfg] at h; exact absurd h (by simp)
    | some cfg =>
      rw [hcfg] at h
      dsimp only at h
      cases uuid with
      | error e => exact absurd h (by simp)
      | ok u =>
        dsimp only at h
        unfold start_remote_daily_attempt at h
        cases hrem : remote nk with
        | error e => rw [hrem] at h; exact absurd h (by simp)
        | ok rs =>
          rw [hrem] at h
          dsimp only at h
          cases h
          have hk := normalize_ok_trim key nk hnorm
          subst hk
          rfl

/-- The daily-submit result echoes the trimmed challenge key. -/
theorem submit_daily_score_echo (key tok : String) (e : ScoreEntry)
    (p : DailyReplayProof) (url akey : Option String)
    (uuid : Except String String)
    (remote : String → String → Except String DailySubmitResult)
    (st : DailySubmitResult)
    (h : submit_daily_score key tok e p url akey uuid remote = .ok st) :
    st.challenge_key = rsTrim key := by
  unfold submit_daily_score at h
  cases hnorm : normalize_daily_challenge_key key with
  | error msg => rw [hnorm] at h; exact absurd h (by simp)
  | ok nk =>
    rw [hnorm] at h
    dsimp only at h
    cases hcfg : normalize_supabase_config url akey with
    | none => rw [hcfg] at h; exact absurd h (by simp)
    | some cfg =>
      rw [hcfg] at h
      dsimp only at h
      cases hent : sanitize_entry e with
      | error msg => rw [hent] at h; exact absurd h (by simp)
      | ok se =>
        rw [hent] at h
        dsimp only at h
        cases hpr : sanitize_daily_replay_proof p with
        | error msg => rw [hpr] at h; exact absurd h (by simp)
        | ok sp =>
          rw [hpr] at h
          dsimp only at h
          cases uuid with
          | error msg => exact absurd h (by simp)
          | ok u =>
            dsimp only at h
            by_cases htok : rsTrim tok = ""
            · rw [if_pos htok] at h
              exact absurd h (by simp)
            · rw [if_neg htok] at h
              unfold submit_remote_daily_score at h
              cases hrem : remote nk (rsTrim tok) with
              | error msg => rw [hrem] at h; exact absurd h (by simp)
              | ok rs =>
                rw [hrem] at h
                dsimp only at h
                cases h
                have hk := normalize_ok_trim key nk hnorm
                subst hk
                rfl

/-- The forfeit result echoes the trimmed challenge key. -/
theorem forfeit_daily_attempt_echo (key tok : String) (url akey : Option String)
    (uuid : Except String String)
    (remote : String → String → Except String DailyForfeitResult)
    (st : DailyForfeitResult)
    (h : forfeit_daily_attempt key tok url akey uuid remote = .ok st) :
    st.challenge_key = rsTrim key := by
  unfold forfeit_daily_attempt at h
  cases hnorm : normalize_daily_challenge_key key with
  | error msg => rw [hnorm] at h; exact absurd h (by simp)
  | ok nk =>
    rw [hnorm] at h
    dsimp only at h
    cases hcfg : normalize_supabase_config url akey with
    | none => rw [hcfg] at h; exact absurd h (by simp)
    | some cfg =>
      rw [hcfg] at h
      dsimp only at h
      by_cases htok : rsTrim tok = ""
      · rw [if_pos htok] at h
        exact absurd h (by simp)
      · rw [if_neg htok] at h
        cases uuid with
        | error msg => exact absurd h (by simp)
        | ok u =>
          dsimp only at h
          unfold forfeit_remote_daily_attempt at h
          cases hrem : remote nk (rsTrim tok) with
          | error msg => rw [hrem] at h; exact absurd h (by simp)
          | ok rs =>
            rw [hrem] at h
            dsimp only at h
            cases h
            have hk := normalize_ok_trim key nk hnorm
            subst hk
            rfl

/-- C10: every daily-challenge operation trims the supplied challenge key
before validating it: the validator only sees the trimmed key, a
well-formed core surrounded by whitespace is accepted as exactly that
core, every operation behaves identically on a key and on its trimmed
form, and the results that carry a challenge key echo the trimmed key
(which is also the key handed to the Registry oracles). -/
theorem c10_daily_ops_trim_key :
    (∀ raw, normalize_daily_challenge_key raw =
      normalize_daily_challenge_key (rsTrim raw)) ∧
    (∀ (pre post : List Char) (core : String),
      (∀ c ∈ pre, rsTrimWs c = true) → (∀ c ∈ post, rsTrimWs c = true) →
      wellFormedKey core = true →
      normalize_daily_challenge_key (String.mk (pre ++ core.data ++ post)) =
        .ok core) ∧
    (∀ key limit url akey remote,
      fetch_daily_scores key limit url akey remote =
        fetch_daily_scores (rsTrim key) limit url akey remote) ∧
    (∀ key url akey uuid remote,
      fetch_daily_status key url akey uuid remote =
        fetch_daily_status (rsTrim key) url akey uuid remote) ∧
    (∀ key url akey uuid rkeys,
      fetch_daily_badge_status key url akey uuid rkeys =
        fetch_daily_badge_status (rsTrim key) url akey uuid rkeys) ∧
    (∀ key url akey uuid remote,
      start_daily_attempt key url akey uuid remote =
        start_daily_attempt (rsTrim key) url akey uuid remote) ∧
    (∀ key tok e p url akey uuid remote,
      submit_daily_score key tok e p url akey uuid remote =
        submit_daily_score (rsTrim key) tok e p url akey uuid remote) ∧
    (∀ key tok url akey uuid remote,
      forfeit_daily_attempt key tok url akey uuid remote =
        forfeit_daily_attempt (rsTrim key) tok url akey uuid remote) ∧
    (∀ key url akey uuid remote st,
      fetch_daily_status key url akey uuid remote = .ok st →
      st.challenge_key = rsTrim key) ∧
    (∀ key url akey uuid remote st,
      start_daily_attempt key url akey uuid remote = .ok st →
      st.challenge_key = rsTrim key) ∧
    (∀ key tok e p url akey uuid remote st,
      submit_daily_score key tok e p url akey uuid remote = .ok st →
      st.challenge_key = rsTrim key) ∧
    (∀ key tok url akey uuid remote st,
      forfeit_daily_attempt key tok url akey uuid remote = .ok st →
      st.challenge_key = rsTrim key) := by
  refine ⟨normalize_trim, normalize_pad, ?_, ?_, ?_, ?_, ?_, ?_,
    fetch_daily_status_echo, start_daily_attempt_echo, submit_daily_score_echo,
    forfeit_daily_attempt_echo⟩
  · intro key limit url akey remote
    unfold fetch_daily_scores
    rw [normalize_trim key]
  · intro key url akey uuid remote
    unfold fetch_daily_status
    rw [normalize_trim key]
  · intro key url akey uuid rkeys
    unfold fetch_daily_badge_status
    rw [normalize_trim key]
  · intro key url akey uuid remote
    unfold start_daily_attempt
    rw [normalize_trim key]
  · intro key tok e p url akey uuid remote
    unfold submit_daily_score
    rw [normalize_trim key]
  · intro key tok url akey uuid remote
    unfold forfeit_daily_attempt
    rw [normalize_trim key]

/-- C10 witness: a well-formed key padded by a space and a newline is
accepted as the bare core. -/
theorem c10_daily_ops_trim_key_witness :
    (∀ c ∈ [' '], rsTrimWs c = true) ∧ (∀ c ∈ ['\n'], rsTrimWs c = true) ∧
    wellFormedKey "2024-02-21" = true ∧
    normalize_daily_challenge_key
        (String.mk ([' '] ++ ("2024-02-21" : String).data ++ ['\n'])) =
      .ok "2024-02-21" :=
  ⟨by decide, by decide, by decide,
    c10_daily_ops_trim_key.2.1 [' '] ['\n'] "2024-02-21"
      (by decide) (by decide) (by decide)⟩
